import Mathlib

/-!
Verification development for the transaction byte-section viewer.

The source program decomposes the canonical wire bytes of a Solana
`VersionedTransaction` into labeled, colored byte sections
(`src/transaction_byte_sections.rs`), renders them as a hex grid
(`src/transaction_byte_block.rs`, `src/byte_block.rs`) and as a deduplicated
legend (`src/byte_section_legend.rs`).

This file shallowly embeds those components:
* the transaction data model and the canonical serializer (the external
  codec `bincode::serialize` with solana short-vec length prefixes, modelled
  from the wire layout it is documented to produce);
* the section extractor `get_transaction_byte_sections` with its helper
  functions, mutation of the `(sections, offset)` pair made explicit and
  Rust panics (out-of-range slice or index) modelled by a `panicked` flag;
* the color set construction;
* the row computation and byte loop of the grid renderer, and the legend
  deduplication loop.

Byte values are modelled as `Nat` (standing for `u8`); the only place where
machine-integer wrap-around matters is the `len as u16` cast feeding the
compact-length encoder, made explicit as `% 65536`.
-/

/-- A byte of the wire buffer (`u8` in the source). -/
abbrev Byte := Nat

/-- `solana_sdk::signature::Signature`: exactly 64 bytes. -/
abbrev Signature := { l : List Byte // l.length = 64 }

/-- `solana_sdk::pubkey::Pubkey`: exactly 32 bytes. -/
abbrev Pubkey := { l : List Byte // l.length = 32 }

/-- `solana_sdk::hash::Hash`: exactly 32 bytes. -/
abbrev Hash := { l : List Byte // l.length = 32 }

/-- `MessageHeader`: three `u8` fields. -/
structure MessageHeader where
  num_required_signatures : Byte
  num_readonly_signed_accounts : Byte
  num_readonly_unsigned_accounts : Byte
deriving DecidableEq

/-- `solana_sdk::instruction::CompiledInstruction`. -/
structure CompiledInstruction where
  program_id_index : Byte
  accounts : List Byte
  data : List Byte
deriving DecidableEq

/-- `solana_sdk::message::v0::MessageAddressTableLookup`. -/
structure MessageAddressTableLookup where
  account_key : Pubkey
  writable_indexes : List Byte
  readonly_indexes : List Byte
deriving DecidableEq

/-- The common fields of a legacy `Message` and a `v0::Message`. -/
structure Message where
  header : MessageHeader
  account_keys : List Pubkey
  recent_blockhash : Hash
  instructions : List CompiledInstruction
deriving DecidableEq

/-- `solana_sdk::message::VersionedMessage`: a legacy message, or a v0
message carrying the optional trailing address-table lookups. -/
inductive VersionedMessage where
  | legacy (message : Message)
  | v0 (message : Message) (address_table_lookups : List MessageAddressTableLookup)
deriving DecidableEq

/-- `solana_sdk::transaction::VersionedTransaction`. -/
structure VersionedTransaction where
  signatures : List Signature
  message : VersionedMessage
deriving DecidableEq

/-- `VersionedMessage::static_account_keys()`. -/
def VersionedMessage.static_account_keys : VersionedMessage → List Pubkey
  | .legacy m => m.account_keys
  | .v0 m _ => m.account_keys

/-- `VersionedMessage::header()`. -/
def VersionedMessage.header : VersionedMessage → MessageHeader
  | .legacy m => m.header
  | .v0 m _ => m.header

/-- `VersionedMessage::recent_blockhash()`. -/
def VersionedMessage.recent_blockhash : VersionedMessage → Hash
  | .legacy m => m.recent_blockhash
  | .v0 m _ => m.recent_blockhash

/-- `VersionedMessage::instructions()`. -/
def VersionedMessage.instructions : VersionedMessage → List CompiledInstruction
  | .legacy m => m.instructions
  | .v0 m _ => m.instructions

/-- `VersionedMessage::address_table_lookups()`: `None` for a legacy
message, `Some` for a v0 message. -/
def VersionedMessage.address_table_lookups :
    VersionedMessage → Option (List MessageAddressTableLookup)
  | .legacy _ => none
  | .v0 _ atls => some atls

/-- `solana_sdk::transaction::TransactionVersion`. -/
inductive TransactionVersion where
  | legacy
  | number (v : Byte)
deriving DecidableEq

/-- `VersionedTransaction::version()`: legacy messages report
`Legacy`, v0 messages report `Number(0)`. -/
def VersionedTransaction.version (t : VersionedTransaction) : TransactionVersion :=
  match t.message with
  | .legacy _ => .legacy
  | .v0 _ _ => .number 0

/-- The solana short-vec (`ShortU16`) compact-length encoding of a vector
length: the length is cast to `u16` (wrap-around made explicit) and emitted
7 bits at a time, low bits first, with the top bit of a byte marking a
continuation.  The result occupies 1 to 3 bytes. -/
def encodeShortU16 (len : Nat) : List Byte :=
  let n := len % 65536
  if n < 128 then [n]
  else if n < 16384 then [n % 128 + 128, n / 128]
  else [n % 128 + 128, (n / 128) % 128 + 128, n / 16384]

/-- Bytes of one serialized `CompiledInstruction`: the `u8` program-id
index, the short-vec of account indexes, the short-vec of data bytes. -/
def serializeInstruction (ix : CompiledInstruction) : List Byte :=
  ix.program_id_index % 256 :: (encodeShortU16 ix.accounts.length ++ ix.accounts
    ++ encodeShortU16 ix.data.length ++ ix.data)

/-- Bytes of one serialized `MessageAddressTableLookup`: the 32-byte table
address, the short-vec of writable indexes, the short-vec of readonly
indexes. -/
def serializeAddressTableLookup (atl : MessageAddressTableLookup) : List Byte :=
  atl.account_key.val ++ encodeShortU16 atl.writable_indexes.length ++ atl.writable_indexes
    ++ encodeShortU16 atl.readonly_indexes.length ++ atl.readonly_indexes

/-- The serialized message prefix up to and including the header: a legacy
message starts directly with the three header bytes, a v0 message is
prefixed with the version marker byte `0x80 | 0 = 128`. -/
def messageHeaderBytes (m : VersionedMessage) : List Byte :=
  let h := m.header
  let hdr := [h.num_required_signatures % 256, h.num_readonly_signed_accounts % 256,
    h.num_readonly_unsigned_accounts % 256]
  match m with
  | .legacy _ => hdr
  | .v0 _ _ => 128 :: hdr

/-- Serialized static account keys: short-vec count then the 32-byte keys. -/
def accountKeysBytes (m : VersionedMessage) : List Byte :=
  encodeShortU16 m.static_account_keys.length
    ++ (m.static_account_keys.map Subtype.val).flatten

/-- Serialized instruction list: short-vec count then the instructions. -/
def instructionsBytes (m : VersionedMessage) : List Byte :=
  encodeShortU16 m.instructions.length
    ++ (m.instructions.map serializeInstruction).flatten

/-- Serialized trailing address-table lookups: absent for a legacy message,
a short-vec for a v0 message. -/
def addressTableLookupsBytes (m : VersionedMessage) : List Byte :=
  match m with
  | .legacy _ => []
  | .v0 _ atls => encodeShortU16 atls.length ++ (atls.map serializeAddressTableLookup).flatten

/-- The canonical wire bytes of a transaction, i.e. what
`bincode::serialize(&transaction).unwrap()` produces: the short-vec of
64-byte signatures followed by the serialized message.  The codec is the
external collaborator of the spec; this definition models the wire layout
it guarantees (spec section 4.1 / section 6). -/
def bincode_serialize (t : VersionedTransaction) : List Byte :=
  encodeShortU16 t.signatures.length ++ (t.signatures.map Subtype.val).flatten
    ++ messageHeaderBytes t.message
    ++ accountKeysBytes t.message
    ++ (t.message.recent_blockhash).val
    ++ instructionsBytes t.message
    ++ addressTableLookupsBytes t.message

/-- `ratatui::style::Color`, restricted to the variants the program uses. -/
inductive Color where
  | Rgb (r g b : Nat)
  | Yellow
  | White
deriving DecidableEq, Repr

/-- A labeled, colored run of bytes (`TransactionByteSection`). -/
structure TransactionByteSection where
  label : Option String
  bytes : List Byte
  color : Color
deriving DecidableEq

/-- `generate_color_set()`: the fixed table of 60 colors.  The Rust
function takes no arguments and returns a reference to a constant array;
it is modelled as a function of `Unit` so that distinct call sites are
distinct applications. -/
def generate_color_set (_u : Unit) : List Color :=
  [Color.Rgb 255 228 196, -- bisque
   Color.Rgb 47 79 79, -- darkslategray
   Color.Rgb 85 107 47, -- darkolivegreen
   Color.Rgb 107 142 35, -- olivedrab
   Color.Rgb 160 82 45, -- sienna
   Color.Rgb 46 139 87, -- seagreen
   Color.Rgb 128 0 0, -- maroon
   Color.Rgb 25 25 112, -- midnightblue
   Color.Rgb 112 128 144, -- slategray
   Color.Rgb 0 128 0, -- green
   Color.Rgb 188 143 143, -- rosybrown
   Color.Rgb 102 51 153, -- rebeccapurple
   Color.Rgb 184 134 11, -- darkgoldenrod
   Color.Rgb 0 139 139, -- darkcyan
   Color.Rgb 205 133 63, -- peru
   Color.Rgb 70 130 180, -- steelblue
   Color.Rgb 210 105 30, -- chocolate
   Color.Rgb 143 188 143, -- darkseagreen
   Color.Rgb 0 0 139, -- darkblue
   Color.Rgb 50 205 50, -- limegreen
   Color.Rgb 127 0 127, -- purple2
   Color.Rgb 176 48 96, -- maroon3
   Color.Rgb 154 205 50, -- yellowgreen
   Color.Rgb 72 209 204, -- mediumturquoise
   Color.Rgb 153 50 204, -- darkorchid
   Color.Rgb 255 0 0, -- red
   Color.Rgb 255 165 0, -- orange
   Color.Rgb 255 215 0, -- gold
   Color.Rgb 199 21 133, -- mediumvioletred
   Color.Rgb 0 0 205, -- mediumblue
   Color.Rgb 222 184 135, -- burlywood
   Color.Rgb 0 255 0, -- lime
   Color.Rgb 0 250 154, -- mediumspringgreen
   Color.Rgb 65 105 225, -- royalblue
   Color.Rgb 220 20 60, -- crimson
   Color.Rgb 0 255 255, -- aqua
   Color.Rgb 0 191 255, -- deepskyblue
   Color.Rgb 147 112 219, -- mediumpurple
   Color.Rgb 0 0 255, -- blue
   Color.Rgb 160 32 240, -- purple3
   Color.Rgb 240 128 128, -- lightcoral
   Color.Rgb 173 255 47, -- greenyellow
   Color.Rgb 255 99 71, -- tomato
   Color.Rgb 218 112 214, -- orchid
   Color.Rgb 216 191 216, -- thistle
   Color.Rgb 255 0 255, -- fuchsia
   Color.Rgb 219 112 147, -- palevioletred
   Color.Rgb 240 230 140, -- khaki
   Color.Rgb 255 255 84, -- laserlemon
   Color.Rgb 100 149 237, -- cornflower
   Color.Rgb 221 160 221, -- plum
   Color.Rgb 144 238 144, -- lightgreen
   Color.Rgb 135 206 235, -- skyblue
   Color.Rgb 255 20 147, -- deeppink
   Color.Rgb 255 160 122, -- lightsalmon
   Color.Rgb 175 238 238, -- paleturquoise
   Color.Rgb 127 255 212, -- aquamarine
   Color.Rgb 255 105 180, -- hotpink
   Color.Rgb 169 169 169, -- darkgray
   Color.Rgb 255 182 193] -- lightpink

/-- `TransactionColorSet`: 17 fixed structural-role colors plus the
key-slot color pool. -/
structure TransactionColorSet where
  signature_count_color : Color
  version_byte_color : Color
  num_required_signatures_color : Color
  num_readonly_signed_accounts_color : Color
  num_readonly_unsigned_accounts_color : Color
  recent_blockhash_color : Color
  num_instructions_color : Color
  instruction_num_accounts_color : Color
  instruction_accounts_color : Color
  instruction_data_length_color : Color
  instruction_data_color : Color
  atl_count_color : Color
  atl_address_color : Color
  atl_write_count_color : Color
  atl_read_count_color : Color
  atl_write_set_color : Color
  atl_read_set_color : Color
  static_account_key_colors : List Color
deriving DecidableEq

/-- `TransactionColorSet::new()`: the first `NUM_NON_ACCOUNT_COLORS = 17`
colors are bound to the fixed structural roles in declaration order, the
remaining colors form the key-slot pool. -/
def TransactionColorSet.new (u : Unit) : TransactionColorSet :=
  let color_set := generate_color_set u
  let non_account_colors := color_set.take 17
  { signature_count_color := non_account_colors.getD 0 Color.White
    version_byte_color := non_account_colors.getD 1 Color.White
    num_required_signatures_color := non_account_colors.getD 2 Color.White
    num_readonly_signed_accounts_color := non_account_colors.getD 3 Color.White
    num_readonly_unsigned_accounts_color := non_account_colors.getD 4 Color.White
    recent_blockhash_color := non_account_colors.getD 5 Color.White
    num_instructions_color := non_account_colors.getD 6 Color.White
    instruction_num_accounts_color := non_account_colors.getD 7 Color.White
    instruction_accounts_color := non_account_colors.getD 8 Color.White
    instruction_data_length_color := non_account_colors.getD 9 Color.White
    instruction_data_color := non_account_colors.getD 10 Color.White
    atl_count_color := non_account_colors.getD 11 Color.White
    atl_address_color := non_account_colors.getD 12 Color.White
    atl_write_count_color := non_account_colors.getD 13 Color.White
    atl_read_count_color := non_account_colors.getD 14 Color.White
    atl_write_set_color := non_account_colors.getD 15 Color.White
    atl_read_set_color := non_account_colors.getD 16 Color.White
    static_account_key_colors := color_set.drop 17 }

/-- The process-wide color set (the `thread_local! COLOR_SET`). -/
def COLOR_SET : TransactionColorSet := TransactionColorSet.new ()

/-- The extractor state made explicit: the caller-owned `sections` vector,
the shared read cursor `offset`, and whether a Rust panic (out-of-range
slice index or out-of-range color index) has occurred.  After a panic the
remaining code does not run; the already-pushed sections remain in the
caller's vector. -/
structure ExtSt where
  sections : List TransactionByteSection
  offset : Nat
  panicked : Bool
deriving DecidableEq

/-- `get_bytes`: `bytes[*offset..*offset + num_bytes].to_vec()` plus the
cursor advance.  The Rust slice indexing panics when the range end exceeds
the buffer length; that case is `none`. -/
def get_bytes (bytes : List Byte) (offset : Nat) (num_bytes : Nat) :
    Option (List Byte × Nat) :=
  if offset + num_bytes ≤ bytes.length then
    some ((bytes.drop offset).take num_bytes, offset + num_bytes)
  else
    none

/-- Push one section: evaluate `get_bytes` (possible slice panic), then the
color expression (possible index panic, passed in as `none`), then append
the section and advance — the evaluation order of the Rust struct literal
fields. -/
def pushRaw (bytes : List Byte) (st : ExtSt) (label : Option String)
    (color : Option Color) (num_bytes : Nat) : ExtSt :=
  if st.panicked then st
  else
    match get_bytes bytes st.offset num_bytes with
    | none => { st with panicked := true }
    | some (chunk, newOff) =>
      match color with
      | none => { st with offset := newOff, panicked := true }
      | some c =>
        { sections := st.sections ++ [⟨label, chunk, c⟩], offset := newOff,
          panicked := false }

/-- The `for (index, _signature) in transaction.signatures.iter().enumerate()`
loop of `add_signature_sections`.  The color is the *unchecked*
`static_account_key_colors[index]`. -/
def add_signature_sections_loop (bytes : List Byte) (sigs : List Signature)
    (index : Nat) (st : ExtSt) : ExtSt :=
  match sigs with
  | [] => st
  | _signature :: rest =>
    add_signature_sections_loop bytes rest (index + 1)
      (pushRaw bytes st (some ("Signature (" ++ toString index ++ ")"))
        (COLOR_SET.static_account_key_colors.get? index) 64)

/-- `add_signature_sections`: the 1-byte signature count section, then one
64-byte section per signature. -/
def add_signature_sections (transaction : VersionedTransaction)
    (bytes : List Byte) (st : ExtSt) : ExtSt :=
  let st := pushRaw bytes st (some "Signature Count")
    (some COLOR_SET.signature_count_color) 1
  add_signature_sections_loop bytes transaction.signatures 0 st

/-- `add_message_header_sections`: an optional 1-byte version marker
section (versioned messages only), then the three 1-byte header field
sections. -/
def add_message_header_sections (transaction : VersionedTransaction)
    (bytes : List Byte) (st : ExtSt) : ExtSt :=
  let st :=
    match transaction.version with
    | .legacy => st
    | .number _ =>
      pushRaw bytes st (some "Version Byte") (some COLOR_SET.version_byte_color) 1
  let st := pushRaw bytes st (some "num_required_signatures")
    (some COLOR_SET.num_required_signatures_color) 1
  let st := pushRaw bytes st (some "num_readonly_signed_accounts")
    (some COLOR_SET.num_readonly_signed_accounts_color) 1
  pushRaw bytes st (some "num_readonly_unsigned_accounts")
    (some COLOR_SET.num_readonly_unsigned_accounts_color) 1

/-- The enumerated loop of `add_static_account_keys_sections`; again an
unchecked `static_account_key_colors[index]`. -/
def add_static_account_keys_sections_loop (bytes : List Byte)
    (keys : List Pubkey) (index : Nat) (st : ExtSt) : ExtSt :=
  match keys with
  | [] => st
  | _account_key :: rest =>
    add_static_account_keys_sections_loop bytes rest (index + 1)
      (pushRaw bytes st (some ("Static Account Key (" ++ toString index ++ ")"))
        (COLOR_SET.static_account_key_colors.get? index) 32)

/-- `add_static_account_keys_sections`: the 1-byte count section (hardcoded
`Color::Yellow`), then one 32-byte section per static key. -/
def add_static_account_keys_sections (transaction : VersionedTransaction)
    (bytes : List Byte) (st : ExtSt) : ExtSt :=
  let st := pushRaw bytes st (some "Static Account Keys Count")
    (some Color.Yellow) 1
  add_static_account_keys_sections_loop bytes
    transaction.message.static_account_keys 0 st

/-- `add_recent_blockhash_section`: one 32-byte section. -/
def add_recent_blockhash_section (_transaction : VersionedTransaction)
    (bytes : List Byte) (st : ExtSt) : ExtSt :=
  pushRaw bytes st (some "Recent Blockhash")
    (some COLOR_SET.recent_blockhash_color) 32

/-- The per-instruction loop of `add_instructions_sections`: the 1-byte
program-id-index section (label `None`, color looked up with a *checked*
`get(..).unwrap_or(White)`), the accounts-count short-vec section, the
account-indexes section, the data-length short-vec section, the data
section.  The two count widths are computed with
`bincode::serialized_size(&ShortU16(len as u16))`. -/
def add_instructions_sections_loop (bytes : List Byte)
    (ixs : List CompiledInstruction) (st : ExtSt) : ExtSt :=
  match ixs with
  | [] => st
  | ix :: rest =>
    let st := pushRaw bytes st none
      (some ((COLOR_SET.static_account_key_colors.get? ix.program_id_index).getD
        Color.White)) 1
    let st := pushRaw bytes st (some "Instruction Number of Accounts")
      (some COLOR_SET.instruction_num_accounts_color)
      (encodeShortU16 ix.accounts.length).length
    let st := pushRaw bytes st (some "Instruction Accounts")
      (some COLOR_SET.instruction_accounts_color) ix.accounts.length
    let st := pushRaw bytes st (some "Instruction Data Length")
      (some COLOR_SET.instruction_data_length_color)
      (encodeShortU16 ix.data.length).length
    let st := pushRaw bytes st (some "Instruction Data")
      (some COLOR_SET.instruction_data_color) ix.data.length
    add_instructions_sections_loop bytes rest st

/-- `add_instructions_sections`: the instruction-count short-vec section
(width computed via `serialized_size`), then the per-instruction loop. -/
def add_instructions_sections (transaction : VersionedTransaction)
    (bytes : List Byte) (st : ExtSt) : ExtSt :=
  let st := pushRaw bytes st (some "Number of Instructions")
    (some COLOR_SET.num_instructions_color)
    (encodeShortU16 transaction.message.instructions.length).length
  add_instructions_sections_loop bytes transaction.message.instructions st

/-- One count-plus-set pair of an address-table-lookup entry: read ONE byte
as the count section, take its value (`count_bytes[0] as usize`) as the
width of the following index-set section.  Shared shape of the write and
read halves of the loop body. -/
def readCountAndSet (bytes : List Byte) (st : ExtSt) (countLabel : String)
    (countColor : Color) (setLabel : String) (setColor : Color) : ExtSt :=
  if st.panicked then st
  else
    match get_bytes bytes st.offset 1 with
    | none => { st with panicked := true }
    | some (count_bytes, newOff) =>
      match count_bytes with
      | [] => { st with offset := newOff, panicked := true }
      | count :: _ =>
        let st : ExtSt :=
          { sections := st.sections ++ [⟨some countLabel, count_bytes, countColor⟩],
            offset := newOff, panicked := false }
        pushRaw bytes st (some setLabel) (some setColor) count

/-- The per-entry loop of `add_message_address_table_lookups_sections`:
the 32-byte table address, then the write count/set pair, then the read
count/set pair. -/
def add_message_address_table_lookups_sections_loop (bytes : List Byte)
    (atls : List MessageAddressTableLookup) (st : ExtSt) : ExtSt :=
  match atls with
  | [] => st
  | _atl :: rest =>
    let st := pushRaw bytes st (some "Message Address Table Lookup Address")
      (some COLOR_SET.atl_address_color) 32
    let st := readCountAndSet bytes st "Message Address Table Lookup Write Count"
      COLOR_SET.atl_write_count_color "Message Address Table Lookup Write Set"
      COLOR_SET.atl_write_set_color
    let st := readCountAndSet bytes st "Message Address Table Lookup Read Count"
      COLOR_SET.atl_read_count_color "Message Address Table Lookup Read Set"
      COLOR_SET.atl_read_set_color
    add_message_address_table_lookups_sections_loop bytes rest st

/-- `add_message_address_table_lookups_sections`: nothing for a legacy
message; otherwise the lookup-count short-vec section then the per-entry
loop. -/
def add_message_address_table_lookups_sections
    (transaction : VersionedTransaction) (bytes : List Byte) (st : ExtSt) :
    ExtSt :=
  match transaction.message.address_table_lookups with
  | none => st
  | some address_table_lookups =>
    let st := pushRaw bytes st (some "Message Address Table Lookups Count")
      (some COLOR_SET.atl_count_color)
      (encodeShortU16 address_table_lookups.length).length
    add_message_address_table_lookups_sections_loop bytes
      address_table_lookups st

/-- `get_transaction_byte_sections`: clear the caller's sections vector,
serialize the transaction, then run the six phase functions in wire
order over the shared cursor. -/
def get_transaction_byte_sections (transaction : VersionedTransaction)
    (sections : List TransactionByteSection) : ExtSt :=
  -- sections.clear(): the incoming contents are discarded
  let _ := sections
  let bytes := bincode_serialize transaction
  let st : ExtSt := { sections := [], offset := 0, panicked := false }
  let st := add_signature_sections transaction bytes st
  let st := add_message_header_sections transaction bytes st
  let st := add_static_account_keys_sections transaction bytes st
  let st := add_recent_blockhash_section transaction bytes st
  let st := add_instructions_sections transaction bytes st
  add_message_address_table_lookups_sections transaction bytes st

/-- Concatenation of the sections' bytes in list order. -/
def concatBytes (sections : List TransactionByteSection) : List Byte :=
  (sections.map TransactionByteSection.bytes).flatten

/-- Total byte length over a section list
(`sections.iter().map(|s| s.bytes.len()).sum()`). -/
def sectionsTotalLen (sections : List TransactionByteSection) : Nat :=
  (sections.map (fun s => s.bytes.length)).sum

/-- The byte loop of `TransactionByteBlock::render_inner` (and of the
identical `ByteBlock::render_inner`), reduced to its control flow: render
the byte into cell `byte_index % bytes_per_line`, and after every
`bytes_per_line`-th byte advance to row `line_index + 1` by splitting
`lines[line_index]` — an *unchecked* index into the `num_lines`-element row
layout, which panics (`false`) when the new row index reaches `num_lines`. -/
def renderLoop (bytes_per_line num_lines : Nat) :
    List Byte → Nat → Nat → Bool
  | [], _, _ => true
  | _byte :: rest, byte_index, line_index =>
    let byte_index := byte_index + 1
    if byte_index % bytes_per_line = 0 then
      if line_index + 1 < num_lines then
        renderLoop bytes_per_line num_lines rest byte_index (line_index + 1)
      else false
    else renderLoop bytes_per_line num_lines rest byte_index line_index

/-- `TransactionByteBlock::render_inner` (the same computation as
`ByteBlock::render_inner`): total byte count, early return on zero bytes,
`bytes_per_line = width / 3` (division by zero panics when the area is
narrower than 3 columns), the row count `num_lines`, then the byte loop.
`some n` means rendering completed with an `n`-row layout; `none` models a
panic. -/
def render_inner (sections : List TransactionByteSection) (width : Nat) :
    Option Nat :=
  let len_bytes := sectionsTotalLen sections
  if len_bytes = 0 then some 0
  else
    let bytes_per_line := width / 3
    if bytes_per_line = 0 then none -- len_bytes / bytes_per_line panics
    else
      let num_lines := len_bytes / bytes_per_line +
        if len_bytes % bytes_per_line = 0 then 0 else 1
      if renderLoop bytes_per_line num_lines (concatBytes sections) 0 0 then
        some num_lines
      else none

/-- The legend computation of `ByteSectionLegend::render_inner`: walk the
sections in order and keep the first occurrence of every present
(`is_some`) label, paired with that section's color.  The Rust code
materializes the set of present labels and removes each label on its first
hit; removal succeeding exactly on first occurrences, this is modelled with
the accumulating `seen` list (`l ∈ seen` iff the label was already removed
from the set). -/
def legendLoop (seen : List String) :
    List TransactionByteSection → List (String × Color)
  | [] => []
  | s :: rest =>
    match s.label with
    | none => legendLoop seen rest
    | some l =>
      if l ∈ seen then legendLoop seen rest
      else (l, s.color) :: legendLoop (l :: seen) rest

/-- The (label, color) entries the legend renders, in order. -/
def legendEntries (sections : List TransactionByteSection) :
    List (String × Color) :=
  legendLoop [] sections

/-- The key-slot color at position `i`, with the `Color::White` fallback of
the checked lookup (`get(i).copied().unwrap_or(White)`).  For `i < 43` this
is exactly the unchecked `static_account_key_colors[i]`. -/
def keyColorD (i : Nat) : Color :=
  (COLOR_SET.static_account_key_colors.get? i).getD Color.White

/-- Expected signature sections from loop index `i` on (64 bytes each). -/
def sigSectionsFrom : List Signature → Nat → List TransactionByteSection
  | [], _ => []
  | s :: rest, i =>
    ⟨some ("Signature (" ++ toString i ++ ")"), s.val, keyColorD i⟩
      :: sigSectionsFrom rest (i + 1)

/-- Expected static-account-key sections from loop index `i` on. -/
def keySectionsFrom : List Pubkey → Nat → List TransactionByteSection
  | [], _ => []
  | k :: rest, i =>
    ⟨some ("Static Account Key (" ++ toString i ++ ")"), k.val, keyColorD i⟩
      :: keySectionsFrom rest (i + 1)

/-- Expected version-byte section: absent for legacy messages. -/
def versionSections (m : VersionedMessage) : List TransactionByteSection :=
  match m with
  | .legacy _ => []
  | .v0 _ _ => [⟨some "Version Byte", [128], COLOR_SET.version_byte_color⟩]

/-- Expected message-header field sections (three 1-byte sections). -/
def headerSections (m : VersionedMessage) : List TransactionByteSection :=
  [⟨some "num_required_signatures", [m.header.num_required_signatures % 256],
      COLOR_SET.num_required_signatures_color⟩,
   ⟨some "num_readonly_signed_accounts", [m.header.num_readonly_signed_accounts % 256],
      COLOR_SET.num_readonly_signed_accounts_color⟩,
   ⟨some "num_readonly_unsigned_accounts", [m.header.num_readonly_unsigned_accounts % 256],
      COLOR_SET.num_readonly_unsigned_accounts_color⟩]

/-- Expected sections of one instruction: program-id-index byte (label
`none`), accounts count, account indexes, data length, data. -/
def ixSections (ix : CompiledInstruction) : List TransactionByteSection :=
  [⟨none, [ix.program_id_index % 256], keyColorD ix.program_id_index⟩,
   ⟨some "Instruction Number of Accounts", encodeShortU16 ix.accounts.length,
      COLOR_SET.instruction_num_accounts_color⟩,
   ⟨some "Instruction Accounts", ix.accounts, COLOR_SET.instruction_accounts_color⟩,
   ⟨some "Instruction Data Length", encodeShortU16 ix.data.length,
      COLOR_SET.instruction_data_length_color⟩,
   ⟨some "Instruction Data", ix.data, COLOR_SET.instruction_data_color⟩]

/-- Expected sections of one address-table-lookup entry (counts below 128,
so each count prefix is its own single byte). -/
def atlSections (atl : MessageAddressTableLookup) : List TransactionByteSection :=
  [⟨some "Message Address Table Lookup Address", atl.account_key.val,
      COLOR_SET.atl_address_color⟩,
   ⟨some "Message Address Table Lookup Write Count",
      encodeShortU16 atl.writable_indexes.length, COLOR_SET.atl_write_count_color⟩,
   ⟨some "Message Address Table Lookup Write Set", atl.writable_indexes,
      COLOR_SET.atl_write_set_color⟩,
   ⟨some "Message Address Table Lookup Read Count",
      encodeShortU16 atl.readonly_indexes.length, COLOR_SET.atl_read_count_color⟩,
   ⟨some "Message Address Table Lookup Read Set", atl.readonly_indexes,
      COLOR_SET.atl_read_set_color⟩]

/-- Expected trailing address-table-lookup sections. -/
def atlPhaseSections (m : VersionedMessage) : List TransactionByteSection :=
  match m with
  | .legacy _ => []
  | .v0 _ atls =>
    ⟨some "Message Address Table Lookups Count", encodeShortU16 atls.length,
        COLOR_SET.atl_count_color⟩
      :: (atls.map atlSections).flatten

/-- The full expected decomposition of a transaction whose counts satisfy
`SafeCounts`: every count-prefix section carries exactly the encoded
compact-length bytes of its count. -/
def expectedSections (t : VersionedTransaction) : List TransactionByteSection :=
  ⟨some "Signature Count", encodeShortU16 t.signatures.length,
      COLOR_SET.signature_count_color⟩
    :: (sigSectionsFrom t.signatures 0
    ++ versionSections t.message
    ++ headerSections t.message
    ++ ⟨some "Static Account Keys Count",
          encodeShortU16 t.message.static_account_keys.length, Color.Yellow⟩
    :: (keySectionsFrom t.message.static_account_keys 0
    ++ ⟨some "Recent Blockhash", t.message.recent_blockhash.val,
          COLOR_SET.recent_blockhash_color⟩
    :: ⟨some "Number of Instructions",
          encodeShortU16 t.message.instructions.length,
          COLOR_SET.num_instructions_color⟩
    :: ((t.message.instructions.map ixSections).flatten
    ++ atlPhaseSections t.message)))

/-- Preconditions under which the extractor is exact: at most 43 signatures
and 43 static keys (the unchecked key-slot color lookups stay in range, and
both counts fit the hardcoded 1-byte prefix reads), and every address-table
lookup has fewer than 128 writable and readonly indexes (their count
prefixes, read as a single buffer byte, really occupy one byte). -/
def SafeCounts (t : VersionedTransaction) : Prop :=
  t.signatures.length ≤ 43 ∧
  t.message.static_account_keys.length ≤ 43 ∧
  ∀ atl ∈ (t.message.address_table_lookups.getD []),
    atl.writable_indexes.length < 128 ∧ atl.readonly_indexes.length < 128

instance (t : VersionedTransaction) : Decidable (SafeCounts t) := by
  unfold SafeCounts; exact inferInstance

/-- An all-zero 64-byte signature. -/
def zeroSig : Signature := ⟨List.replicate 64 0, by simp⟩

/-- An all-zero 32-byte key. -/
def zeroKey : Pubkey := ⟨List.replicate 32 0, by simp⟩

/-- A 32-byte key with value `v` in every byte. -/
def constKey (v : Byte) : Pubkey := ⟨List.replicate 32 v, by simp⟩

/-- An all-zero 32-byte hash. -/
def zeroHash : Hash := ⟨List.replicate 32 0, by simp⟩

/-- A small well-behaved legacy transaction: 1 signature, 1 static key,
1 instruction. -/
def txSmall : VersionedTransaction :=
  { signatures := [zeroSig],
    message := VersionedMessage.legacy
      { header := ⟨1, 0, 0⟩,
        account_keys := [zeroKey],
        recent_blockhash := zeroHash,
        instructions := [⟨0, [0], [7]⟩] } }

/-- A v0 transaction whose single address-table lookup has 128 writable
indexes: its write-count prefix occupies two bytes in the wire buffer, but
the extractor reads only one. -/
def txWideWrites : VersionedTransaction :=
  { signatures := [],
    message := VersionedMessage.v0
      { header := ⟨0, 0, 0⟩,
        account_keys := [],
        recent_blockhash := zeroHash,
        instructions := [] }
      [⟨zeroKey, List.replicate 128 0, []⟩] }

/-- A v0 transaction whose single address-table lookup has 128 writable
indexes all equal to 255: the misaligned read-count byte is 255 and the
following 255-byte read-set slice runs past the end of the buffer. -/
def txOverrun : VersionedTransaction :=
  { signatures := [],
    message := VersionedMessage.v0
      { header := ⟨0, 0, 0⟩,
        account_keys := [],
        recent_blockhash := zeroHash,
        instructions := [] }
      [⟨zeroKey, List.replicate 128 255, []⟩] }

/-- A legacy transaction with 128 static account keys: the key-count prefix
occupies two bytes in the wire buffer. -/
def txManyKeys : VersionedTransaction :=
  { signatures := [],
    message := VersionedMessage.legacy
      { header := ⟨0, 0, 0⟩,
        account_keys := List.replicate 128 zeroKey,
        recent_blockhash := zeroHash,
        instructions := [] } }

/-- The end-to-end scenario transaction: legacy, 1 signature, 2 static
account keys, 1 instruction referencing account index 0 with 3 bytes of
data, no address-table lookups. -/
def txScenario : VersionedTransaction :=
  { signatures := [zeroSig],
    message := VersionedMessage.legacy
      { header := ⟨1, 0, 1⟩,
        account_keys := [zeroKey, constKey 1],
        recent_blockhash := zeroHash,
        instructions := [⟨1, [0], [1, 2, 3]⟩] } }

/-- A legacy transaction sharing the scenario's shape, used to exhibit the
shared key-slot color of `Signature (0)` and `Static Account Key (0)`. -/
def txSharedColor : VersionedTransaction :=
  { signatures := [zeroSig],
    message := VersionedMessage.legacy
      { header := ⟨1, 0, 0⟩,
        account_keys := [zeroKey, constKey 2],
        recent_blockhash := zeroHash,
        instructions := [⟨1, [0], [9]⟩] } }

/-- A legacy transaction with 44 signatures: the unchecked color lookup at
signature index 43 is out of range. -/
def txManySigs : VersionedTransaction :=
  { signatures := List.replicate 44 zeroSig,
    message := VersionedMessage.legacy
      { header := ⟨1, 0, 0⟩,
        account_keys := [],
        recent_blockhash := zeroHash,
        instructions := [] } }

/-- A legacy transaction whose instruction has the out-of-range program-id
index 200: the checked lookup falls back to `Color::White`. -/
def txWildProgramId : VersionedTransaction :=
  { signatures := [zeroSig],
    message := VersionedMessage.legacy
      { header := ⟨1, 0, 0⟩,
        account_keys := [zeroKey],
        recent_blockhash := zeroHash,
        instructions := [⟨200, [], []⟩] } }

/-- A v0 transaction exercising every phase within `SafeCounts`: 1
signature, 2 keys, 1 instruction, 1 address-table lookup. -/
def txFullSafe : VersionedTransaction :=
  { signatures := [zeroSig],
    message := VersionedMessage.v0
      { header := ⟨1, 0, 1⟩,
        account_keys := [zeroKey, constKey 3],
        recent_blockhash := zeroHash,
        instructions := [⟨1, [0, 1], [5, 6]⟩] }
      [⟨constKey 4, [0, 2], [1]⟩] }

/-- The labels of the six count-prefix section kinds named by the spec:
signature count, static-account-key count, instruction count,
per-instruction account count, per-instruction data length,
address-table-lookup count. -/
def isCountLabel (l : Option String) : Bool :=
  l = some "Signature Count" ∨ l = some "Static Account Keys Count" ∨
  l = some "Number of Instructions" ∨ l = some "Instruction Number of Accounts" ∨
  l = some "Instruction Data Length" ∨ l = some "Message Address Table Lookups Count"

/-- Every (label, color) pair a section of a `SafeCounts` decomposition can
carry, with the present labels only: the fixed role labels with their fixed
colors, and the two indexed label families over key-slot positions `0..43`.
The pool index can reach 43 only through an instruction's program-id byte,
whose label is `none`, so index 43 never appears here with a present
label; it is included for uniformity of the bound `i < 44`. -/
def allowedLabelColorPairs : List (Option String × Color) :=
  [(some "Signature Count", COLOR_SET.signature_count_color),
   (some "Version Byte", COLOR_SET.version_byte_color),
   (some "num_required_signatures", COLOR_SET.num_required_signatures_color),
   (some "num_readonly_signed_accounts", COLOR_SET.num_readonly_signed_accounts_color),
   (some "num_readonly_unsigned_accounts", COLOR_SET.num_readonly_unsigned_accounts_color),
   (some "Static Account Keys Count", Color.Yellow),
   (some "Recent Blockhash", COLOR_SET.recent_blockhash_color),
   (some "Number of Instructions", COLOR_SET.num_instructions_color),
   (some "Instruction Number of Accounts", COLOR_SET.instruction_num_accounts_color),
   (some "Instruction Accounts", COLOR_SET.instruction_accounts_color),
   (some "Instruction Data Length", COLOR_SET.instruction_data_length_color),
   (some "Instruction Data", COLOR_SET.instruction_data_color),
   (some "Message Address Table Lookups Count", COLOR_SET.atl_count_color),
   (some "Message Address Table Lookup Address", COLOR_SET.atl_address_color),
   (some "Message Address Table Lookup Write Count", COLOR_SET.atl_write_count_color),
   (some "Message Address Table Lookup Write Set", COLOR_SET.atl_write_set_color),
   (some "Message Address Table Lookup Read Count", COLOR_SET.atl_read_count_color),
   (some "Message Address Table Lookup Read Set", COLOR_SET.atl_read_set_color)]
  ++ ((List.range 44).map
    (fun i => (some ("Signature (" ++ toString i ++ ")"), keyColorD i)))
  ++ ((List.range 44).map
    (fun i => (some ("Static Account Key (" ++ toString i ++ ")"), keyColorD i)))

/-- Label-functionality of a pair list: equal present labels carry equal
colors. -/
abbrev LabelFunctional (ps : List (Option String × Color)) : Prop :=
  ∀ p ∈ ps, ∀ q ∈ ps, p.1 = q.1 → p.1.isSome → p.2 = q.2

/-- A legacy transaction with two instructions, so per-instruction labels
such as "Instruction Data" occur twice. -/
def txTwoInstructions : VersionedTransaction :=
  { signatures := [zeroSig],
    message := VersionedMessage.legacy
      { header := ⟨1, 0, 0⟩,
        account_keys := [zeroKey, constKey 5],
        recent_blockhash := zeroHash,
        instructions := [⟨1, [0], [1]⟩, ⟨1, [0], [2, 3]⟩] } }

set_option maxRecDepth 4000

theorem encodeShortU16_eq_of_lt {n : Nat} (h : n < 128) : encodeShortU16 n = [n] := by
  unfold encodeShortU16
  rw [Nat.mod_eq_of_lt (by omega)]
  simp [h]

theorem encodeShortU16_length (n : Nat) :
    1 ≤ (encodeShortU16 n).length ∧ (encodeShortU16 n).length ≤ 3 := by
  unfold encodeShortU16
  by_cases h1 : n % 65536 < 128
  · simp [h1]
  · by_cases h2 : n % 65536 < 16384 <;> simp [h1, h2]

theorem get_bytes_spec {bytes chunk rest : List Byte} {off : Nat}
    (hoff : off ≤ bytes.length)
    (h : bytes.drop off = chunk ++ rest) :
    get_bytes bytes off chunk.length = some (chunk, off + chunk.length) ∧
    off + chunk.length ≤ bytes.length ∧
    bytes.drop (off + chunk.length) = rest := by
  have hlen : bytes.length - off = chunk.length + rest.length := by
    have h2 := congrArg List.length h
    simpa using h2
  have hle : off + chunk.length ≤ bytes.length := by omega
  refine ⟨?_, hle, ?_⟩
  · unfold get_bytes
    rw [if_pos hle, h]
    simp
  · have h3 : bytes.drop (off + chunk.length) = (bytes.drop off).drop chunk.length := by
      rw [List.drop_drop, Nat.add_comm]
    rw [h3, h]
    simp

theorem pushRaw_spec {bytes chunk rest : List Byte} {off : Nat}
    (secs : List TransactionByteSection) (label : Option String) (c : Color)
    (hoff : off ≤ bytes.length)
    (h : bytes.drop off = chunk ++ rest) :
    pushRaw bytes ⟨secs, off, false⟩ label (some c) chunk.length
      = ⟨secs ++ [⟨label, chunk, c⟩], off + chunk.length, false⟩ ∧
    off + chunk.length ≤ bytes.length ∧
    bytes.drop (off + chunk.length) = rest := by
  obtain ⟨h1, h2, h3⟩ := get_bytes_spec hoff h
  exact ⟨by unfold pushRaw; simp [h1], h2, h3⟩

theorem pushRaw_of_panicked {st : ExtSt} (bytes : List Byte)
    (label : Option String) (color : Option Color) (n : Nat)
    (h : st.panicked = true) : pushRaw bytes st label color n = st := by
  unfold pushRaw
  simp [h]

theorem pushRaw_panicked_mono {st : ExtSt} (bytes : List Byte)
    (label : Option String) (color : Option Color) (n : Nat)
    (h : st.panicked = true) : (pushRaw bytes st label color n).panicked = true := by
  rw [pushRaw_of_panicked bytes label color n h]; exact h

theorem pushRaw_none_color {st : ExtSt} (bytes : List Byte)
    (label : Option String) (n : Nat) :
    (pushRaw bytes st label none n).panicked = true := by
  unfold pushRaw
  by_cases h : st.panicked
  · simp [h]
  · simp [h]
    split <;> simp

theorem readCountAndSet_of_panicked {st : ExtSt} (bytes : List Byte)
    (cl : String) (cc : Color) (sl : String) (sc : Color)
    (h : st.panicked = true) : readCountAndSet bytes st cl cc sl sc = st := by
  unfold readCountAndSet
  simp [h]

theorem add_signature_sections_loop_of_panicked (bytes : List Byte) :
    ∀ (sigs : List Signature) (idx : Nat) (st : ExtSt), st.panicked = true →
      add_signature_sections_loop bytes sigs idx st = st
  | [], _, _, _ => rfl
  | _s :: rest, idx, st, h => by
    unfold add_signature_sections_loop
    rw [pushRaw_of_panicked _ _ _ _ h]
    exact add_signature_sections_loop_of_panicked bytes rest (idx + 1) st h

theorem add_static_account_keys_sections_loop_of_panicked (bytes : List Byte) :
    ∀ (keys : List Pubkey) (idx : Nat) (st : ExtSt), st.panicked = true →
      add_static_account_keys_sections_loop bytes keys idx st = st
  | [], _, _, _ => rfl
  | _k :: rest, idx, st, h => by
    unfold add_static_account_keys_sections_loop
    rw [pushRaw_of_panicked _ _ _ _ h]
    exact add_static_account_keys_sections_loop_of_panicked bytes rest (idx + 1) st h

theorem add_instructions_sections_loop_of_panicked (bytes : List Byte) :
    ∀ (ixs : List CompiledInstruction) (st : ExtSt), st.panicked = true →
      add_instructions_sections_loop bytes ixs st = st
  | [], _, _ => rfl
  | _ix :: rest, st, h => by
    unfold add_instructions_sections_loop
    simp only [pushRaw_of_panicked _ _ _ _ h]
    exact add_instructions_sections_loop_of_panicked bytes rest st h

theorem add_message_address_table_lookups_sections_loop_of_panicked
    (bytes : List Byte) :
    ∀ (atls : List MessageAddressTableLookup) (st : ExtSt), st.panicked = true →
      add_message_address_table_lookups_sections_loop bytes atls st = st
  | [], _, _ => rfl
  | _atl :: rest, st, h => by
    unfold add_message_address_table_lookups_sections_loop
    simp only [pushRaw_of_panicked _ _ _ _ h, readCountAndSet_of_panicked _ _ _ _ _ h]
    exact add_message_address_table_lookups_sections_loop_of_panicked bytes rest st h

theorem add_message_header_sections_of_panicked {st : ExtSt}
    (t : VersionedTransaction) (bytes : List Byte) (h : st.panicked = true) :
    add_message_header_sections t bytes st = st := by
  unfold add_message_header_sections
  cases t.version <;>
    simp [pushRaw_of_panicked _ _ _ _ h]

theorem add_static_account_keys_sections_of_panicked {st : ExtSt}
    (t : VersionedTransaction) (bytes : List Byte) (h : st.panicked = true) :
    add_static_account_keys_sections t bytes st = st := by
  unfold add_static_account_keys_sections
  rw [pushRaw_of_panicked _ _ _ _ h]
  exact add_static_account_keys_sections_loop_of_panicked bytes _ 0 st h

theorem add_recent_blockhash_section_of_panicked {st : ExtSt}
    (t : VersionedTransaction) (bytes : List Byte) (h : st.panicked = true) :
    add_recent_blockhash_section t bytes st = st :=
  pushRaw_of_panicked _ _ _ _ h

theorem add_instructions_sections_of_panicked {st : ExtSt}
    (t : VersionedTransaction) (bytes : List Byte) (h : st.panicked = true) :
    add_instructions_sections t bytes st = st := by
  unfold add_instructions_sections
  rw [pushRaw_of_panicked _ _ _ _ h]
  exact add_instructions_sections_loop_of_panicked bytes _ st h

theorem add_message_address_table_lookups_sections_of_panicked {st : ExtSt}
    (t : VersionedTransaction) (bytes : List Byte) (h : st.panicked = true) :
    add_message_address_table_lookups_sections t bytes st = st := by
  unfold add_message_address_table_lookups_sections
  cases hm : t.message.address_table_lookups with
  | none => rfl
  | some atls =>
    simp only [pushRaw_of_panicked _ _ _ _ h]
    exact add_message_address_table_lookups_sections_loop_of_panicked bytes atls st h

theorem keyColors_length : COLOR_SET.static_account_key_colors.length = 43 := by
  decide

theorem keyColors_get?_of_lt {i : Nat} (h : i < 43) :
    COLOR_SET.static_account_key_colors.get? i = some (keyColorD i) := by
  have hne : COLOR_SET.static_account_key_colors.get? i ≠ none := by
    intro hnone
    rw [List.get?_eq_none, keyColors_length] at hnone
    omega
  obtain ⟨c, hc⟩ := Option.ne_none_iff_exists'.mp hne
  rw [hc]
  unfold keyColorD
  rw [hc]
  rfl

theorem keyColors_get?_of_ge {i : Nat} (h : 43 ≤ i) :
    COLOR_SET.static_account_key_colors.get? i = none := by
  rw [List.get?_eq_none, keyColors_length]
  exact h

theorem add_signature_sections_loop_panics (bytes : List Byte) :
    ∀ (sigs : List Signature) (idx : Nat) (st : ExtSt),
      43 < idx + sigs.length → (idx ≤ 43 ∨ st.panicked = true) →
      (add_signature_sections_loop bytes sigs idx st).panicked = true := by
  intro sigs
  induction sigs with
  | nil =>
    intro idx st hlt hd
    rcases hd with hd | hd
    · simp at hlt; omega
    · exact hd
  | cons s rest ih =>
    intro idx st hlt hd
    unfold add_signature_sections_loop
    rcases hd with hd | hd
    · by_cases hidx : idx = 43
      · apply ih (idx + 1) _ (by simp at hlt ⊢; omega)
        right
        subst hidx
        rw [keyColors_get?_of_ge (le_refl 43)]
        exact pushRaw_none_color _ _ _
      · by_cases hp : (pushRaw bytes st (some ("Signature (" ++ toString idx ++ ")"))
            (COLOR_SET.static_account_key_colors.get? idx) 64).panicked = true
        · exact ih (idx + 1) _ (by simp at hlt ⊢; omega) (Or.inr hp)
        · exact ih (idx + 1) _ (by simp at hlt ⊢; omega) (Or.inl (by omega))
    · apply ih (idx + 1) _ (by simp at hlt ⊢; omega)
      exact Or.inr (pushRaw_panicked_mono _ _ _ _ hd)

theorem add_static_account_keys_sections_loop_panics (bytes : List Byte) :
    ∀ (keys : List Pubkey) (idx : Nat) (st : ExtSt),
      43 < idx + keys.length → (idx ≤ 43 ∨ st.panicked = true) →
      (add_static_account_keys_sections_loop bytes keys idx st).panicked = true := by
  intro keys
  induction keys with
  | nil =>
    intro idx st hlt hd
    rcases hd with hd | hd
    · simp at hlt; omega
    · exact hd
  | cons k rest ih =>
    intro idx st hlt hd
    unfold add_static_account_keys_sections_loop
    rcases hd with hd | hd
    · by_cases hidx : idx = 43
      · apply ih (idx + 1) _ (by simp at hlt ⊢; omega)
        right
        subst hidx
        rw [keyColors_get?_of_ge (le_refl 43)]
        exact pushRaw_none_color _ _ _
      · by_cases hp : (pushRaw bytes st (some ("Static Account Key (" ++ toString idx ++ ")"))
            (COLOR_SET.static_account_key_colors.get? idx) 32).panicked = true
        · exact ih (idx + 1) _ (by simp at hlt ⊢; omega) (Or.inr hp)
        · exact ih (idx + 1) _ (by simp at hlt ⊢; omega) (Or.inl (by omega))
    · apply ih (idx + 1) _ (by simp at hlt ⊢; omega)
      exact Or.inr (pushRaw_panicked_mono _ _ _ _ hd)

theorem extractor_panics_of_many_sigs (t : VersionedTransaction)
    (init : List TransactionByteSection) (h : 43 < t.signatures.length) :
    (get_transaction_byte_sections t init).panicked = true := by
  simp only [get_transaction_byte_sections]
  have h1 : (add_signature_sections t (bincode_serialize t)
      ⟨[], 0, false⟩).panicked = true := by
    unfold add_signature_sections
    exact add_signature_sections_loop_panics _ _ 0 _ (by omega) (Or.inl (by omega))
  rw [add_message_header_sections_of_panicked t _ h1,
    add_static_account_keys_sections_of_panicked t _ h1,
    add_recent_blockhash_section_of_panicked t _ h1,
    add_instructions_sections_of_panicked t _ h1,
    add_message_address_table_lookups_sections_of_panicked t _ h1]
  exact h1

theorem extractor_panics_of_many_keys (t : VersionedTransaction)
    (init : List TransactionByteSection)
    (h : 43 < t.message.static_account_keys.length) :
    (get_transaction_byte_sections t init).panicked = true := by
  simp only [get_transaction_byte_sections]
  have h1 : (add_static_account_keys_sections t (bincode_serialize t)
      (add_message_header_sections t (bincode_serialize t)
        (add_signature_sections t (bincode_serialize t)
          ⟨[], 0, false⟩))).panicked = true := by
    unfold add_static_account_keys_sections
    exact add_static_account_keys_sections_loop_panics _ _ 0 _ (by omega)
      (Or.inl (by omega))
  rw [add_recent_blockhash_section_of_panicked t _ h1,
    add_instructions_sections_of_panicked t _ h1,
    add_message_address_table_lookups_sections_of_panicked t _ h1]
  exact h1

theorem add_signature_sections_loop_spec (bytes : List Byte) :
    ∀ (sigs : List Signature) (idx : Nat) (secs : List TransactionByteSection)
      (off : Nat) (rest : List Byte),
      idx + sigs.length ≤ 43 →
      off ≤ bytes.length →
      bytes.drop off = (sigs.map Subtype.val).flatten ++ rest →
      ∃ off', add_signature_sections_loop bytes sigs idx ⟨secs, off, false⟩
          = ⟨secs ++ sigSectionsFrom sigs idx, off', false⟩
        ∧ off' ≤ bytes.length ∧ bytes.drop off' = rest := by
  intro sigs
  induction sigs with
  | nil =>
    intro idx secs off rest _ hoff h
    refine ⟨off, ?_, hoff, by simpa using h⟩
    simp [add_signature_sections_loop, sigSectionsFrom]
  | cons s rest' ih =>
    intro idx secs off rest hidx hoff h
    have hidx43 : idx < 43 := by simp at hidx; omega
    have h' : bytes.drop off = s.val ++ ((rest'.map Subtype.val).flatten ++ rest) := by
      simpa [List.append_assoc] using h
    obtain ⟨hpush, hle, hdrop⟩ :=
      pushRaw_spec secs (some ("Signature (" ++ toString idx ++ ")"))
        (keyColorD idx) hoff h'
    obtain ⟨off', hloop, hle', hdrop'⟩ :=
      ih (idx + 1) (secs ++ [⟨some ("Signature (" ++ toString idx ++ ")"), s.val,
        keyColorD idx⟩]) (off + s.val.length) rest (by simp at hidx ⊢; omega)
        hle hdrop
    refine ⟨off', ?_, hle', hdrop'⟩
    unfold add_signature_sections_loop
    rw [keyColors_get?_of_lt hidx43]
    rw [show (64 : Nat) = s.val.length from s.property.symm]
    rw [hpush, hloop]
    simp [sigSectionsFrom]

theorem add_static_account_keys_sections_loop_spec (bytes : List Byte) :
    ∀ (keys : List Pubkey) (idx : Nat) (secs : List TransactionByteSection)
      (off : Nat) (rest : List Byte),
      idx + keys.length ≤ 43 →
      off ≤ bytes.length →
      bytes.drop off = (keys.map Subtype.val).flatten ++ rest →
      ∃ off', add_static_account_keys_sections_loop bytes keys idx ⟨secs, off, false⟩
          = ⟨secs ++ keySectionsFrom keys idx, off', false⟩
        ∧ off' ≤ bytes.length ∧ bytes.drop off' = rest := by
  intro keys
  induction keys with
  | nil =>
    intro idx secs off rest _ hoff h
    refine ⟨off, ?_, hoff, by simpa using h⟩
    simp [add_static_account_keys_sections_loop, keySectionsFrom]
  | cons k rest' ih =>
    intro idx secs off rest hidx hoff h
    have hidx43 : idx < 43 := by simp at hidx; omega
    have h' : bytes.drop off = k.val ++ ((rest'.map Subtype.val).flatten ++ rest) := by
      simpa [List.append_assoc] using h
    obtain ⟨hpush, hle, hdrop⟩ :=
      pushRaw_spec secs (some ("Static Account Key (" ++ toString idx ++ ")"))
        (keyColorD idx) hoff h'
    obtain ⟨off', hloop, hle', hdrop'⟩ :=
      ih (idx + 1) (secs ++ [⟨some ("Static Account Key (" ++ toString idx ++ ")"),
        k.val, keyColorD idx⟩]) (off + k.val.length) rest (by simp at hidx ⊢; omega)
        hle hdrop
    refine ⟨off', ?_, hle', hdrop'⟩
    unfold add_static_account_keys_sections_loop
    rw [keyColors_get?_of_lt hidx43]
    rw [show (32 : Nat) = k.val.length from k.property.symm]
    rw [hpush, hloop]
    simp [keySectionsFrom]

theorem get_bytes_spec' {bytes rest : List Byte} {off : Nat}
    (chunk : List Byte) (n : Nat)
    (hn : chunk.length = n) (hoff : off ≤ bytes.length)
    (h : bytes.drop off = chunk ++ rest) :
    get_bytes bytes off n = some (chunk, off + n) ∧
    off + n ≤ bytes.length ∧ bytes.drop (off + n) = rest := by
  subst hn
  exact get_bytes_spec hoff h

theorem pushRaw_spec' {bytes rest : List Byte} {off : Nat}
    (chunk : List Byte) (n : Nat)
    (secs : List TransactionByteSection) (label : Option String) (c : Color)
    (hn : chunk.length = n) (hoff : off ≤ bytes.length)
    (h : bytes.drop off = chunk ++ rest) :
    pushRaw bytes ⟨secs, off, false⟩ label (some c) n
      = ⟨secs ++ [⟨label, chunk, c⟩], off + n, false⟩ ∧
    off + n ≤ bytes.length ∧ bytes.drop (off + n) = rest := by
  subst hn
  exact pushRaw_spec secs label c hoff h

theorem readCountAndSet_spec {bytes setChunk rest : List Byte} {off : Nat}
    (secs : List TransactionByteSection) (cl : String) (cc : Color)
    (sl : String) (sc : Color) (cnt : Nat)
    (hlen : setChunk.length = cnt)
    (hoff : off ≤ bytes.length)
    (h : bytes.drop off = cnt :: (setChunk ++ rest)) :
    readCountAndSet bytes ⟨secs, off, false⟩ cl cc sl sc
      = ⟨secs ++ [⟨some cl, [cnt], cc⟩, ⟨some sl, setChunk, sc⟩],
          off + 1 + cnt, false⟩ ∧
    off + 1 + cnt ≤ bytes.length ∧ bytes.drop (off + 1 + cnt) = rest := by
  have h1 : bytes.drop off = [cnt] ++ (setChunk ++ rest) := by simpa using h
  obtain ⟨hget, hle1, hdrop1⟩ := get_bytes_spec' [cnt] 1 rfl hoff h1
  obtain ⟨hpush, hle2, hdrop2⟩ :=
    pushRaw_spec' setChunk cnt (secs ++ [⟨some cl, [cnt], cc⟩]) (some sl) sc
      hlen hle1 hdrop1
  refine ⟨?_, ?_, ?_⟩
  · unfold readCountAndSet
    simp only [hget]
    rw [hpush]
    simp
  · simpa [Nat.add_assoc] using hle2
  · simpa [Nat.add_assoc] using hdrop2

theorem add_instructions_sections_loop_spec (bytes : List Byte) :
    ∀ (ixs : List CompiledInstruction) (secs : List TransactionByteSection)
      (off : Nat) (rest : List Byte),
      off ≤ bytes.length →
      bytes.drop off = (ixs.map serializeInstruction).flatten ++ rest →
      ∃ off', add_instructions_sections_loop bytes ixs ⟨secs, off, false⟩
          = ⟨secs ++ (ixs.map ixSections).flatten, off', false⟩
        ∧ off' ≤ bytes.length ∧ bytes.drop off' = rest := by
  intro ixs
  induction ixs with
  | nil =>
    intro secs off rest hoff h
    exact ⟨off, by simp [add_instructions_sections_loop], hoff, by simpa using h⟩
  | cons ix rest' ih =>
    intro secs off rest hoff h
    have h1 : bytes.drop off = [ix.program_id_index % 256] ++
        (encodeShortU16 ix.accounts.length ++ (ix.accounts ++
          (encodeShortU16 ix.data.length ++ (ix.data ++
            ((rest'.map serializeInstruction).flatten ++ rest))))) := by
      simpa [serializeInstruction, List.append_assoc] using h
    obtain ⟨hp1, hle1, hd1⟩ := pushRaw_spec' [ix.program_id_index % 256] 1 secs none
      ((COLOR_SET.static_account_key_colors.get? ix.program_id_index).getD
        Color.White) rfl hoff h1
    obtain ⟨hp2, hle2, hd2⟩ := pushRaw_spec' _ _
      (secs ++ [⟨none, [ix.program_id_index % 256],
        (COLOR_SET.static_account_key_colors.get? ix.program_id_index).getD
          Color.White⟩])
      (some "Instruction Number of Accounts")
      COLOR_SET.instruction_num_accounts_color rfl hle1 hd1
    obtain ⟨hp3, hle3, hd3⟩ := pushRaw_spec' _ _
      (secs ++ [⟨none, [ix.program_id_index % 256],
        (COLOR_SET.static_account_key_colors.get? ix.program_id_index).getD
          Color.White⟩] ++ [⟨some "Instruction Number of Accounts",
        encodeShortU16 ix.accounts.length, COLOR_SET.instruction_num_accounts_color⟩])
      (some "Instruction Accounts") COLOR_SET.instruction_accounts_color rfl hle2 hd2
    obtain ⟨hp4, hle4, hd4⟩ := pushRaw_spec' _ _
      (secs ++ [⟨none, [ix.program_id_index % 256],
        (COLOR_SET.static_account_key_colors.get? ix.program_id_index).getD
          Color.White⟩] ++ [⟨some "Instruction Number of Accounts",
        encodeShortU16 ix.accounts.length, COLOR_SET.instruction_num_accounts_color⟩]
        ++ [⟨some "Instruction Accounts", ix.accounts,
          COLOR_SET.instruction_accounts_color⟩])
      (some "Instruction Data Length") COLOR_SET.instruction_data_length_color
      rfl hle3 hd3
    obtain ⟨hp5, hle5, hd5⟩ := pushRaw_spec' _ _
      (secs ++ [⟨none, [ix.program_id_index % 256],
        (COLOR_SET.static_account_key_colors.get? ix.program_id_index).getD
          Color.White⟩] ++ [⟨some "Instruction Number of Accounts",
        encodeShortU16 ix.accounts.length, COLOR_SET.instruction_num_accounts_color⟩]
        ++ [⟨some "Instruction Accounts", ix.accounts,
          COLOR_SET.instruction_accounts_color⟩]
        ++ [⟨some "Instruction Data Length", encodeShortU16 ix.data.length,
          COLOR_SET.instruction_data_length_color⟩])
      (some "Instruction Data") COLOR_SET.instruction_data_color rfl hle4 hd4
    obtain ⟨off', hih, hle', hd'⟩ := ih
      (secs ++ [⟨none, [ix.program_id_index % 256],
        (COLOR_SET.static_account_key_colors.get? ix.program_id_index).getD
          Color.White⟩] ++ [⟨some "Instruction Number of Accounts",
        encodeShortU16 ix.accounts.length, COLOR_SET.instruction_num_accounts_color⟩]
        ++ [⟨some "Instruction Accounts", ix.accounts,
          COLOR_SET.instruction_accounts_color⟩]
        ++ [⟨some "Instruction Data Length", encodeShortU16 ix.data.length,
          COLOR_SET.instruction_data_length_color⟩]
        ++ [⟨some "Instruction Data", ix.data, COLOR_SET.instruction_data_color⟩])
      _ rest hle5 hd5
    refine ⟨off', ?_, hle', hd'⟩
    unfold add_instructions_sections_loop
    simp only [hp1, hp2, hp3, hp4, hp5, hih]
    simp [ixSections, keyColorD, List.append_assoc]

theorem add_message_address_table_lookups_sections_loop_spec (bytes : List Byte) :
    ∀ (atls : List MessageAddressTableLookup)
      (secs : List TransactionByteSection) (off : Nat) (rest : List Byte),
      (∀ atl ∈ atls, atl.writable_indexes.length < 128 ∧
        atl.readonly_indexes.length < 128) →
      off ≤ bytes.length →
      bytes.drop off = (atls.map serializeAddressTableLookup).flatten ++ rest →
      ∃ off', add_message_address_table_lookups_sections_loop bytes atls
          ⟨secs, off, false⟩
          = ⟨secs ++ (atls.map atlSections).flatten, off', false⟩
        ∧ off' ≤ bytes.length ∧ bytes.drop off' = rest := by
  intro atls
  induction atls with
  | nil =>
    intro secs off rest _ hoff h
    exact ⟨off, by simp [add_message_address_table_lookups_sections_loop],
      hoff, by simpa using h⟩
  | cons atl rest' ih =>
    intro secs off rest hsafe hoff h
    obtain ⟨⟨hw, hr⟩, hsafe'⟩ := List.forall_mem_cons.mp hsafe
    have h1 : bytes.drop off = atl.account_key.val ++
        (atl.writable_indexes.length :: (atl.writable_indexes ++
          (atl.readonly_indexes.length :: (atl.readonly_indexes ++
            ((rest'.map serializeAddressTableLookup).flatten ++ rest))))) := by
      have e1 := encodeShortU16_eq_of_lt hw
      have e2 := encodeShortU16_eq_of_lt hr
      simpa [serializeAddressTableLookup, e1, e2, List.append_assoc] using h
    obtain ⟨hp1, hle1, hd1⟩ := pushRaw_spec' atl.account_key.val 32 secs
      (some "Message Address Table Lookup Address") COLOR_SET.atl_address_color
      atl.account_key.property hoff h1
    obtain ⟨hp2, hle2, hd2⟩ := readCountAndSet_spec
      (secs ++ [⟨some "Message Address Table Lookup Address",
        atl.account_key.val, COLOR_SET.atl_address_color⟩])
      "Message Address Table Lookup Write Count" COLOR_SET.atl_write_count_color
      "Message Address Table Lookup Write Set" COLOR_SET.atl_write_set_color
      atl.writable_indexes.length rfl hle1 hd1
    obtain ⟨hp3, hle3, hd3⟩ := readCountAndSet_spec
      (secs ++ [⟨some "Message Address Table Lookup Address",
        atl.account_key.val, COLOR_SET.atl_address_color⟩]
        ++ [⟨some "Message Address Table Lookup Write Count",
          [atl.writable_indexes.length], COLOR_SET.atl_write_count_color⟩,
        ⟨some "Message Address Table Lookup Write Set", atl.writable_indexes,
          COLOR_SET.atl_write_set_color⟩])
      "Message Address Table Lookup Read Count" COLOR_SET.atl_read_count_color
      "Message Address Table Lookup Read Set" COLOR_SET.atl_read_set_color
      atl.readonly_indexes.length rfl hle2 hd2
    obtain ⟨off', hih, hle', hd'⟩ := ih
      (secs ++ [⟨some "Message Address Table Lookup Address",
        atl.account_key.val, COLOR_SET.atl_address_color⟩]
        ++ [⟨some "Message Address Table Lookup Write Count",
          [atl.writable_indexes.length], COLOR_SET.atl_write_count_color⟩,
        ⟨some "Message Address Table Lookup Write Set", atl.writable_indexes,
          COLOR_SET.atl_write_set_color⟩]
        ++ [⟨some "Message Address Table Lookup Read Count",
          [atl.readonly_indexes.length], COLOR_SET.atl_read_count_color⟩,
        ⟨some "Message Address Table Lookup Read Set", atl.readonly_indexes,
          COLOR_SET.atl_read_set_color⟩])
      _ rest hsafe' hle3 hd3
    refine ⟨off', ?_, hle', hd'⟩
    unfold add_message_address_table_lookups_sections_loop
    simp only [hp1, hp2, hp3, hih]
    simp [atlSections, encodeShortU16_eq_of_lt hw, encodeShortU16_eq_of_lt hr,
      List.append_assoc]

theorem add_signature_sections_spec (t : VersionedTransaction) (bytes : List Byte)
    (secs : List TransactionByteSection) (off : Nat) (rest : List Byte)
    (hn : t.signatures.length ≤ 43)
    (hoff : off ≤ bytes.length)
    (h : bytes.drop off = encodeShortU16 t.signatures.length ++
      ((t.signatures.map Subtype.val).flatten ++ rest)) :
    ∃ off', add_signature_sections t bytes ⟨secs, off, false⟩
        = ⟨secs ++ (⟨some "Signature Count", encodeShortU16 t.signatures.length,
            COLOR_SET.signature_count_color⟩ :: sigSectionsFrom t.signatures 0),
          off', false⟩
      ∧ off' ≤ bytes.length ∧ bytes.drop off' = rest := by
  have hlen1 : (encodeShortU16 t.signatures.length).length = 1 := by
    rw [encodeShortU16_eq_of_lt (by omega)]
    rfl
  obtain ⟨hp1, hle1, hd1⟩ := pushRaw_spec' _ _ secs (some "Signature Count")
    COLOR_SET.signature_count_color hlen1 hoff h
  obtain ⟨off', hloop, hle', hd'⟩ := add_signature_sections_loop_spec bytes
    t.signatures 0 (secs ++ [⟨some "Signature Count",
      encodeShortU16 t.signatures.length, COLOR_SET.signature_count_color⟩])
    (off + 1) rest (by omega) hle1 hd1
  refine ⟨off', ?_, hle', hd'⟩
  unfold add_signature_sections
  simp only [hp1, hloop]
  simp

theorem add_message_header_sections_spec (t : VersionedTransaction)
    (bytes : List Byte) (secs : List TransactionByteSection) (off : Nat)
    (rest : List Byte)
    (hoff : off ≤ bytes.length)
    (h : bytes.drop off = messageHeaderBytes t.message ++ rest) :
    ∃ off', add_message_header_sections t bytes ⟨secs, off, false⟩
        = ⟨secs ++ (versionSections t.message ++ headerSections t.message),
          off', false⟩
      ∧ off' ≤ bytes.length ∧ bytes.drop off' = rest := by
  cases hm : t.message with
  | legacy msg =>
    have hver : t.version = TransactionVersion.legacy := by
      unfold VersionedTransaction.version
      rw [hm]
    rw [hm] at h
    have h1 : bytes.drop off = [msg.header.num_required_signatures % 256] ++
        ([msg.header.num_readonly_signed_accounts % 256] ++
          ([msg.header.num_readonly_unsigned_accounts % 256] ++ rest)) := by
      simpa [messageHeaderBytes, VersionedMessage.header] using h
    obtain ⟨hp1, hle1, hd1⟩ := pushRaw_spec'
      [msg.header.num_required_signatures % 256] 1 secs
      (some "num_required_signatures") COLOR_SET.num_required_signatures_color
      rfl hoff h1
    obtain ⟨hp2, hle2, hd2⟩ := pushRaw_spec'
      [msg.header.num_readonly_signed_accounts % 256] 1
      (secs ++ [⟨some "num_required_signatures",
        [msg.header.num_required_signatures % 256],
        COLOR_SET.num_required_signatures_color⟩])
      (some "num_readonly_signed_accounts")
      COLOR_SET.num_readonly_signed_accounts_color rfl hle1 hd1
    obtain ⟨hp3, hle3, hd3⟩ := pushRaw_spec'
      [msg.header.num_readonly_unsigned_accounts % 256] 1
      (secs ++ [⟨some "num_required_signatures",
        [msg.header.num_required_signatures % 256],
        COLOR_SET.num_required_signatures_color⟩]
        ++ [⟨some "num_readonly_signed_accounts",
        [msg.header.num_readonly_signed_accounts % 256],
        COLOR_SET.num_readonly_signed_accounts_color⟩])
      (some "num_readonly_unsigned_accounts")
      COLOR_SET.num_readonly_unsigned_accounts_color rfl hle2 hd2
    refine ⟨off + 1 + 1 + 1, ?_, hle3, hd3⟩
    unfold add_message_header_sections
    rw [hver]
    simp only [hp1, hp2, hp3]
    simp [versionSections, headerSections, hm, VersionedMessage.header,
      List.append_assoc]
  | v0 msg atls =>
    have hver : t.version = TransactionVersion.number 0 := by
      unfold VersionedTransaction.version
      rw [hm]
    rw [hm] at h
    have h1 : bytes.drop off = [128] ++
        ([msg.header.num_required_signatures % 256] ++
        ([msg.header.num_readonly_signed_accounts % 256] ++
          ([msg.header.num_readonly_unsigned_accounts % 256] ++ rest))) := by
      simpa [messageHeaderBytes, VersionedMessage.header] using h
    obtain ⟨hp0, hle0, hd0⟩ := pushRaw_spec' [128] 1 secs
      (some "Version Byte") COLOR_SET.version_byte_color rfl hoff h1
    obtain ⟨hp1, hle1, hd1⟩ := pushRaw_spec'
      [msg.header.num_required_signatures % 256] 1
      (secs ++ [⟨some "Version Byte", [128], COLOR_SET.version_byte_color⟩])
      (some "num_required_signatures") COLOR_SET.num_required_signatures_color
      rfl hle0 hd0
    obtain ⟨hp2, hle2, hd2⟩ := pushRaw_spec'
      [msg.header.num_readonly_signed_accounts % 256] 1
      (secs ++ [⟨some "Version Byte", [128], COLOR_SET.version_byte_color⟩]
        ++ [⟨some "num_required_signatures",
        [msg.header.num_required_signatures % 256],
        COLOR_SET.num_required_signatures_color⟩])
      (some "num_readonly_signed_accounts")
      COLOR_SET.num_readonly_signed_accounts_color rfl hle1 hd1
    obtain ⟨hp3, hle3, hd3⟩ := pushRaw_spec'
      [msg.header.num_readonly_unsigned_accounts % 256] 1
      (secs ++ [⟨some "Version Byte", [128], COLOR_SET.version_byte_color⟩]
        ++ [⟨some "num_required_signatures",
        [msg.header.num_required_signatures % 256],
        COLOR_SET.num_required_signatures_color⟩]
        ++ [⟨some "num_readonly_signed_accounts",
        [msg.header.num_readonly_signed_accounts % 256],
        COLOR_SET.num_readonly_signed_accounts_color⟩])
      (some "num_readonly_unsigned_accounts")
      COLOR_SET.num_readonly_unsigned_accounts_color rfl hle2 hd2
    refine ⟨off + 1 + 1 + 1 + 1, ?_, hle3, hd3⟩
    unfold add_message_header_sections
    rw [hver]
    simp only [hp0, hp1, hp2, hp3]
    simp [versionSections, headerSections, hm, VersionedMessage.header,
      List.append_assoc]

theorem add_static_account_keys_sections_spec (t : VersionedTransaction)
    (bytes : List Byte) (secs : List TransactionByteSection) (off : Nat)
    (rest : List Byte)
    (hn : t.message.static_account_keys.length ≤ 43)
    (hoff : off ≤ bytes.length)
    (h : bytes.drop off = encodeShortU16 t.message.static_account_keys.length ++
      ((t.message.static_account_keys.map Subtype.val).flatten ++ rest)) :
    ∃ off', add_static_account_keys_sections t bytes ⟨secs, off, false⟩
        = ⟨secs ++ (⟨some "Static Account Keys Count",
            encodeShortU16 t.message.static_account_keys.length, Color.Yellow⟩
            :: keySectionsFrom t.message.static_account_keys 0),
          off', false⟩
      ∧ off' ≤ bytes.length ∧ bytes.drop off' = rest := by
  have hlen1 : (encodeShortU16 t.message.static_account_keys.length).length = 1 := by
    rw [encodeShortU16_eq_of_lt (by omega)]
    rfl
  obtain ⟨hp1, hle1, hd1⟩ := pushRaw_spec' _ _ secs
    (some "Static Account Keys Count") Color.Yellow hlen1 hoff h
  obtain ⟨off', hloop, hle', hd'⟩ := add_static_account_keys_sections_loop_spec
    bytes t.message.static_account_keys 0
    (secs ++ [⟨some "Static Account Keys Count",
      encodeShortU16 t.message.static_account_keys.length, Color.Yellow⟩])
    (off + 1) rest (by omega) hle1 hd1
  refine ⟨off', ?_, hle', hd'⟩
  unfold add_static_account_keys_sections
  simp only [hp1, hloop]
  simp

theorem add_recent_blockhash_section_spec (t : VersionedTransaction)
    (bytes : List Byte) (secs : List TransactionByteSection) (off : Nat)
    (rest : List Byte)
    (hoff : off ≤ bytes.length)
    (h : bytes.drop off = t.message.recent_blockhash.val ++ rest) :
    add_recent_blockhash_section t bytes ⟨secs, off, false⟩
        = ⟨secs ++ [⟨some "Recent Blockhash", t.message.recent_blockhash.val,
            COLOR_SET.recent_blockhash_color⟩], off + 32, false⟩
      ∧ off + 32 ≤ bytes.length ∧ bytes.drop (off + 32) = rest := by
  obtain ⟨hp1, hle1, hd1⟩ := pushRaw_spec'
    t.message.recent_blockhash.val 32 secs (some "Recent Blockhash")
    COLOR_SET.recent_blockhash_color t.message.recent_blockhash.property hoff h
  exact ⟨hp1, hle1, hd1⟩

theorem add_instructions_sections_spec (t : VersionedTransaction)
    (bytes : List Byte) (secs : List TransactionByteSection) (off : Nat)
    (rest : List Byte)
    (hoff : off ≤ bytes.length)
    (h : bytes.drop off = encodeShortU16 t.message.instructions.length ++
      ((t.message.instructions.map serializeInstruction).flatten ++ rest)) :
    ∃ off', add_instructions_sections t bytes ⟨secs, off, false⟩
        = ⟨secs ++ (⟨some "Number of Instructions",
            encodeShortU16 t.message.instructions.length,
            COLOR_SET.num_instructions_color⟩
            :: (t.message.instructions.map ixSections).flatten),
          off', false⟩
      ∧ off' ≤ bytes.length ∧ bytes.drop off' = rest := by
  obtain ⟨hp1, hle1, hd1⟩ := pushRaw_spec' _ _ secs
    (some "Number of Instructions") COLOR_SET.num_instructions_color rfl hoff h
  obtain ⟨off', hloop, hle', hd'⟩ := add_instructions_sections_loop_spec bytes
    t.message.instructions
    (secs ++ [⟨some "Number of Instructions",
      encodeShortU16 t.message.instructions.length,
      COLOR_SET.num_instructions_color⟩])
    _ rest hle1 hd1
  refine ⟨off', ?_, hle', hd'⟩
  unfold add_instructions_sections
  simp only [hp1, hloop]
  simp

theorem add_message_address_table_lookups_sections_spec
    (t : VersionedTransaction) (bytes : List Byte)
    (secs : List TransactionByteSection) (off : Nat) (rest : List Byte)
    (hsafe : ∀ atl ∈ (t.message.address_table_lookups.getD []),
      atl.writable_indexes.length < 128 ∧ atl.readonly_indexes.length < 128)
    (hoff : off ≤ bytes.length)
    (h : bytes.drop off = addressTableLookupsBytes t.message ++ rest) :
    ∃ off', add_message_address_table_lookups_sections t bytes ⟨secs, off, false⟩
        = ⟨secs ++ atlPhaseSections t.message, off', false⟩
      ∧ off' ≤ bytes.length ∧ bytes.drop off' = rest := by
  cases hm : t.message with
  | legacy msg =>
    refine ⟨off, ?_, hoff, ?_⟩
    · unfold add_message_address_table_lookups_sections
      rw [hm]
      simp [VersionedMessage.address_table_lookups, atlPhaseSections]
    · rw [hm] at h
      simpa [addressTableLookupsBytes] using h
  | v0 msg atls =>
    rw [hm] at h hsafe
    have h1 : bytes.drop off = encodeShortU16 atls.length ++
        ((atls.map serializeAddressTableLookup).flatten ++ rest) := by
      simpa [addressTableLookupsBytes, List.append_assoc] using h
    obtain ⟨hp1, hle1, hd1⟩ := pushRaw_spec' _ _ secs
      (some "Message Address Table Lookups Count") COLOR_SET.atl_count_color
      rfl hoff h1
    obtain ⟨off', hloop, hle', hd'⟩ :=
      add_message_address_table_lookups_sections_loop_spec bytes atls
        (secs ++ [⟨some "Message Address Table Lookups Count",
          encodeShortU16 atls.length, COLOR_SET.atl_count_color⟩])
        _ rest (by simpa [VersionedMessage.address_table_lookups] using hsafe)
        hle1 hd1
    refine ⟨off', ?_, hle', hd'⟩
    unfold add_message_address_table_lookups_sections
    rw [hm]
    simp only [VersionedMessage.address_table_lookups]
    simp only [hp1, hloop]
    simp [atlPhaseSections]

theorem extractor_characterization (t : VersionedTransaction)
    (init : List TransactionByteSection) (hsafe : SafeCounts t) :
    get_transaction_byte_sections t init
      = ⟨expectedSections t, (bincode_serialize t).length, false⟩ := by
  obtain ⟨hs, hk, hatl⟩ := hsafe
  have h0 : (bincode_serialize t).drop 0 = encodeShortU16 t.signatures.length ++
      ((t.signatures.map Subtype.val).flatten ++ (messageHeaderBytes t.message ++
        (accountKeysBytes t.message ++ (t.message.recent_blockhash.val ++
          (instructionsBytes t.message ++
            (addressTableLookupsBytes t.message ++ [])))))) := by
    simp [bincode_serialize, List.append_assoc]
  obtain ⟨o1, hp1, hle1, hd1⟩ := add_signature_sections_spec t
    (bincode_serialize t) [] 0 _ hs (by omega) h0
  obtain ⟨o2, hp2, hle2, hd2⟩ := add_message_header_sections_spec t
    (bincode_serialize t) _ o1 _ hle1 hd1
  have hd2' : (bincode_serialize t).drop o2 =
      encodeShortU16 t.message.static_account_keys.length ++
      ((t.message.static_account_keys.map Subtype.val).flatten ++
        (t.message.recent_blockhash.val ++ (instructionsBytes t.message ++
          (addressTableLookupsBytes t.message ++ [])))) := by
    simpa [accountKeysBytes, List.append_assoc] using hd2
  obtain ⟨o3, hp3, hle3, hd3⟩ := add_static_account_keys_sections_spec t
    (bincode_serialize t) _ o2 _ hk hle2 hd2'
  obtain ⟨hp4, hle4, hd4⟩ := add_recent_blockhash_section_spec t
    (bincode_serialize t) _ o3 _ hle3 hd3
  have hd4' : (bincode_serialize t).drop (o3 + 32) =
      encodeShortU16 t.message.instructions.length ++
      ((t.message.instructions.map serializeInstruction).flatten ++
        (addressTableLookupsBytes t.message ++ [])) := by
    simpa [instructionsBytes, List.append_assoc] using hd4
  obtain ⟨o5, hp5, hle5, hd5⟩ := add_instructions_sections_spec t
    (bincode_serialize t) _ (o3 + 32) _ hle4 hd4'
  obtain ⟨o6, hp6, hle6, hd6⟩ := add_message_address_table_lookups_sections_spec t
    (bincode_serialize t) _ o5 _ hatl hle5 hd5
  have hlen6 : o6 = (bincode_serialize t).length := by
    have := congrArg List.length hd6
    simp at this
    omega
  simp only [get_transaction_byte_sections]
  rw [hp1, hp2, hp3, hp4, hp5, hp6, hlen6]
  simp [expectedSections, List.append_assoc]

theorem concatBytes_append (a b : List TransactionByteSection) :
    concatBytes (a ++ b) = concatBytes a ++ concatBytes b := by
  simp [concatBytes]

theorem concatBytes_cons (s : TransactionByteSection)
    (l : List TransactionByteSection) :
    concatBytes (s :: l) = s.bytes ++ concatBytes l := by
  simp [concatBytes]

theorem concatBytes_sigSectionsFrom :
    ∀ (sigs : List Signature) (i : Nat),
      concatBytes (sigSectionsFrom sigs i) = (sigs.map Subtype.val).flatten
  | [], _ => rfl
  | s :: rest, i => by
    simp [sigSectionsFrom, concatBytes_cons,
      concatBytes_sigSectionsFrom rest (i + 1)]

theorem concatBytes_keySectionsFrom :
    ∀ (keys : List Pubkey) (i : Nat),
      concatBytes (keySectionsFrom keys i) = (keys.map Subtype.val).flatten
  | [], _ => rfl
  | k :: rest, i => by
    simp [keySectionsFrom, concatBytes_cons,
      concatBytes_keySectionsFrom rest (i + 1)]

theorem concatBytes_ixSections (ix : CompiledInstruction) :
    concatBytes (ixSections ix) = serializeInstruction ix := by
  simp [ixSections, serializeInstruction, concatBytes, List.append_assoc]

theorem concatBytes_ixSections_flatten :
    ∀ (ixs : List CompiledInstruction),
      concatBytes ((ixs.map ixSections).flatten)
        = (ixs.map serializeInstruction).flatten
  | [] => rfl
  | ix :: rest => by
    simp only [List.map_cons, List.flatten_cons, concatBytes_append]
    rw [concatBytes_ixSections, concatBytes_ixSections_flatten rest]

theorem concatBytes_atlSections (atl : MessageAddressTableLookup) :
    concatBytes (atlSections atl) = serializeAddressTableLookup atl := by
  simp [atlSections, serializeAddressTableLookup, concatBytes, List.append_assoc]

theorem concatBytes_atlSections_flatten :
    ∀ (atls : List MessageAddressTableLookup),
      concatBytes ((atls.map atlSections).flatten)
        = (atls.map serializeAddressTableLookup).flatten
  | [] => rfl
  | atl :: rest => by
    simp only [List.map_cons, List.flatten_cons, concatBytes_append]
    rw [concatBytes_atlSections, concatBytes_atlSections_flatten rest]

theorem concatBytes_nil : concatBytes [] = [] := rfl

theorem concatBytes_expectedSections (t : VersionedTransaction) :
    concatBytes (expectedSections t) = bincode_serialize t := by
  cases hm : t.message with
  | legacy msg =>
    simp only [expectedSections, bincode_serialize, hm, concatBytes_cons,
      concatBytes_append, concatBytes_nil, concatBytes_sigSectionsFrom,
      concatBytes_keySectionsFrom, concatBytes_ixSections_flatten,
      concatBytes_atlSections_flatten, versionSections, headerSections,
      atlPhaseSections, messageHeaderBytes, accountKeysBytes,
      instructionsBytes, addressTableLookupsBytes, VersionedMessage.header,
      VersionedMessage.static_account_keys, VersionedMessage.instructions,
      VersionedMessage.recent_blockhash]
    simp [concatBytes, List.append_assoc]
  | v0 msg atls =>
    simp only [expectedSections, bincode_serialize, hm, concatBytes_cons,
      concatBytes_append, concatBytes_nil, concatBytes_sigSectionsFrom,
      concatBytes_keySectionsFrom, concatBytes_ixSections_flatten,
      concatBytes_atlSections_flatten, versionSections, headerSections,
      atlPhaseSections, messageHeaderBytes, accountKeysBytes,
      instructionsBytes, addressTableLookupsBytes, VersionedMessage.header,
      VersionedMessage.static_account_keys, VersionedMessage.instructions,
      VersionedMessage.recent_blockhash]
    simp [concatBytes, List.append_assoc]

theorem sectionsTotalLen_eq_length_concat (l : List TransactionByteSection) :
    sectionsTotalLen l = (concatBytes l).length := by
  simp only [sectionsTotalLen, concatBytes, List.length_flatten, List.map_map]
  rfl

/-- Claim C1, amended: for every transaction with at most 43 signatures, at
most 43 static account keys, and fewer than 128 writable and readonly
indexes in every address-table lookup, extraction completes and
concatenating the returned sections' bytes in order reproduces the
canonical buffer exactly, the sum of the section lengths equalling the
buffer's length.  (As stated the claim fails: a completed extraction can
return a strict prefix when a lookup's write-count prefix occupies two
bytes, see the counterexample.) -/
theorem claim_C1_total_partition (t : VersionedTransaction)
    (init : List TransactionByteSection) (h : SafeCounts t) :
    (get_transaction_byte_sections t init).panicked = false ∧
    concatBytes (get_transaction_byte_sections t init).sections
      = bincode_serialize t ∧
    sectionsTotalLen (get_transaction_byte_sections t init).sections
      = (bincode_serialize t).length := by
  rw [extractor_characterization t init h]
  refine ⟨rfl, concatBytes_expectedSections t, ?_⟩
  rw [sectionsTotalLen_eq_length_concat, concatBytes_expectedSections]

/-- Witness for C1 at the small legacy transaction. -/
theorem claim_C1_witness :
    SafeCounts txSmall ∧
    ((get_transaction_byte_sections txSmall []).panicked = false ∧
     concatBytes (get_transaction_byte_sections txSmall []).sections
       = bincode_serialize txSmall ∧
     sectionsTotalLen (get_transaction_byte_sections txSmall []).sections
       = (bincode_serialize txSmall).length) :=
  ⟨by decide, claim_C1_total_partition txSmall [] (by decide)⟩

/-- Counterexample to C1 as stated: on `txWideWrites` the extractor
completes (no panic), yet the concatenated section bytes are a strict
prefix of the buffer — the 2-byte write-count prefix was read as 1 byte. -/
theorem claim_C1_counterexample :
    (get_transaction_byte_sections txWideWrites []).panicked = false ∧
    concatBytes (get_transaction_byte_sections txWideWrites []).sections
      ≠ bincode_serialize txWideWrites ∧
    sectionsTotalLen (get_transaction_byte_sections txWideWrites []).sections
      ≠ (bincode_serialize txWideWrites).length := by
  exact ⟨by decide, by decide, by decide⟩

/-- Claim C2: evaluation of the extractor at the failing input
`txOverrun` (a canonical buffer whose misaligned read-count byte is 255):
the run hits an out-of-range slice (`get_bytes` past the buffer end) and
panics — there is no typed recoverable fault value in the extractor's
signature at all — and the caller's vector is left holding the 13
partially-written sections instead of being cleared or surfacing an
error. -/
theorem claim_C2_truncation_panics :
    (get_transaction_byte_sections txOverrun []).panicked = true ∧
    (get_transaction_byte_sections txOverrun []).sections.length = 13 :=
  ⟨by decide, by decide⟩

/-- Claim C4: the end-to-end scenario — a legacy transaction with 1
signature, 2 static keys, 1 instruction referencing account index 0 with 3
data bytes, no lookups — yields exactly the claimed section order (no
version-byte section), and the section lengths sum to the serialized
buffer's length (173). -/
theorem claim_C4_end_to_end :
    ((get_transaction_byte_sections txScenario []).sections.map
        (fun s => (s.label, s.bytes.length)))
      = [(some "Signature Count", 1), (some "Signature (0)", 64),
         (some "num_required_signatures", 1),
         (some "num_readonly_signed_accounts", 1),
         (some "num_readonly_unsigned_accounts", 1),
         (some "Static Account Keys Count", 1),
         (some "Static Account Key (0)", 32), (some "Static Account Key (1)", 32),
         (some "Recent Blockhash", 32), (some "Number of Instructions", 1),
         (none, 1), (some "Instruction Number of Accounts", 1),
         (some "Instruction Accounts", 1), (some "Instruction Data Length", 1),
         (some "Instruction Data", 3)] ∧
    (get_transaction_byte_sections txScenario []).panicked = false ∧
    sectionsTotalLen (get_transaction_byte_sections txScenario []).sections
      = (bincode_serialize txScenario).length ∧
    (bincode_serialize txScenario).length = 173 :=
  ⟨by decide, by decide, by decide, by decide⟩

/-- Claim C6: the color generator is deterministic — the color table is a
fixed constant, so any two calls agree (in particular on the first 1, 17 or
60 colors), and the derived color set construction is deterministic too. -/
theorem claim_C6_color_determinism :
    (∀ u v : Unit, ∀ n : Nat,
      (generate_color_set u).take n = (generate_color_set v).take n) ∧
    (∀ u v : Unit, TransactionColorSet.new u = TransactionColorSet.new v) ∧
    (generate_color_set ()).length = 60 := by
  refine ⟨?_, ?_, by decide⟩
  · intro u v n
    cases u
    cases v
    rfl
  · intro u v
    cases u
    cases v
    rfl

/-- Claim C7: evaluation of the grid row computation. At the claimed
failing input — 100 total bytes, width 60, so `bytes_per_row = 20` and the
claim demands exactly 5 rows — the render loop advances `line_index` after
the 100th byte and indexes the 5-element row layout out of bounds: a panic
(`none`), not 5 rows.  At 101 bytes it does produce the claimed
`ceil(101/20) = 6` rows, and a zero-byte section list renders nothing. -/
theorem claim_C7_row_count :
    render_inner [⟨none, List.replicate 100 0, Color.White⟩] 60 = none ∧
    render_inner [⟨none, List.replicate 101 0, Color.White⟩] 60 = some 6 ∧
    render_inner [] 60 = some 0 :=
  ⟨by decide, by decide, by decide⟩

/-- Claim C9: with at least one byte and an inner width below 3 columns,
`bytes_per_line = width / 3` is zero and the row-count division divides by
zero — a panic (`none`); the zero-byte early return is the sole guard and
applies at every width. -/
theorem claim_C9_division_by_zero (ss : List TransactionByteSection) (w : Nat) :
    (0 < sectionsTotalLen ss → w < 3 → render_inner ss w = none) ∧
    (sectionsTotalLen ss = 0 → render_inner ss w = some 0) := by
  constructor
  · intro hpos hw
    have h3 : w / 3 = 0 := Nat.div_eq_of_lt hw
    simp only [render_inner]
    rw [if_neg (by omega), h3, if_pos rfl]
  · intro hz
    simp only [render_inner]
    rw [if_pos hz]

/-- Witness for C9: a 1-byte section list at width 2 panics; the empty
section list renders zero rows at the same width. -/
theorem claim_C9_witness :
    (0 < sectionsTotalLen [⟨none, [0], Color.White⟩] ∧ (2 : Nat) < 3 ∧
      render_inner [⟨none, [0], Color.White⟩] 2 = none) ∧
    (sectionsTotalLen ([] : List TransactionByteSection) = 0 ∧
      render_inner [] 2 = some 0) :=
  ⟨⟨by decide, by decide,
    (claim_C9_division_by_zero [⟨none, [0], Color.White⟩] 2).1 (by decide)
      (by decide)⟩,
   ⟨by decide, (claim_C9_division_by_zero [] 2).2 (by decide)⟩⟩

/-- Claim C10: the key-slot pool holds exactly `60 - 17 = 43` colors; the
unchecked signature/static-key color lookups succeed exactly below index
43, and any transaction with more than 43 signatures or static keys panics
inside the extractor; the per-instruction program-id byte instead uses the
checked fallback lookup — at the out-of-range index 200 extraction
completes and that section's color is `Color::White`. -/
theorem claim_C10_key_slot_pool :
    COLOR_SET.static_account_key_colors.length = 60 - 17 ∧
    (∀ i : Nat, (COLOR_SET.static_account_key_colors.get? i).isSome ↔ i < 43) ∧
    (∀ (t : VersionedTransaction) (init : List TransactionByteSection),
      43 < t.signatures.length →
      (get_transaction_byte_sections t init).panicked = true) ∧
    (∀ (t : VersionedTransaction) (init : List TransactionByteSection),
      43 < t.message.static_account_keys.length →
      (get_transaction_byte_sections t init).panicked = true) ∧
    ((get_transaction_byte_sections txWildProgramId []).panicked = false ∧
     ((get_transaction_byte_sections txWildProgramId []).sections.get? 9).map
        (fun s => (s.label, s.color)) = some (none, Color.White)) := by
  refine ⟨by decide, ?_, extractor_panics_of_many_sigs,
    extractor_panics_of_many_keys, by decide, by decide⟩
  intro i
  constructor
  · intro hs
    by_contra hge
    rw [keyColors_get?_of_ge (by omega)] at hs
    simp at hs
  · intro hlt
    rw [keyColors_get?_of_lt hlt]
    rfl

/-- Witness for C10: the panic branches instantiated at the concrete
44-signature and 128-key transactions. -/
theorem claim_C10_witness :
    (43 < txManySigs.signatures.length ∧
      (get_transaction_byte_sections txManySigs []).panicked = true) ∧
    (43 < txManyKeys.message.static_account_keys.length ∧
      (get_transaction_byte_sections txManyKeys []).panicked = true) :=
  ⟨⟨by decide, claim_C10_key_slot_pool.2.2.1 txManySigs [] (by decide)⟩,
   ⟨by decide, claim_C10_key_slot_pool.2.2.2.1 txManyKeys [] (by decide)⟩⟩

theorem legendLoop_cons_none {s : TransactionByteSection} (seen : List String)
    (rest : List TransactionByteSection) (h : s.label = none) :
    legendLoop seen (s :: rest) = legendLoop seen rest := by
  conv_lhs => unfold legendLoop
  rw [h]

theorem legendLoop_cons_mem {s : TransactionByteSection} {l : String}
    (seen : List String) (rest : List TransactionByteSection)
    (h : s.label = some l) (hm : l ∈ seen) :
    legendLoop seen (s :: rest) = legendLoop seen rest := by
  conv_lhs => unfold legendLoop
  rw [h]
  simp only [if_pos hm]

theorem legendLoop_cons_new {s : TransactionByteSection} {l : String}
    (seen : List String) (rest : List TransactionByteSection)
    (h : s.label = some l) (hm : l ∉ seen) :
    legendLoop seen (s :: rest) = (l, s.color) :: legendLoop (l :: seen) rest := by
  conv_lhs => unfold legendLoop
  rw [h]
  simp only [if_neg hm]

theorem legendLoop_fst_not_mem_seen :
    ∀ (ss : List TransactionByteSection) (seen : List String),
      ∀ p ∈ legendLoop seen ss, p.1 ∉ seen := by
  intro ss
  induction ss with
  | nil => intro seen p hp; simp [legendLoop] at hp
  | cons s rest ih =>
    intro seen p hp
    cases hl : s.label with
    | none =>
      rw [legendLoop_cons_none seen rest hl] at hp
      exact ih seen p hp
    | some l =>
      by_cases hmem : l ∈ seen
      · rw [legendLoop_cons_mem seen rest hl hmem] at hp
        exact ih seen p hp
      · rw [legendLoop_cons_new seen rest hl hmem] at hp
        rcases List.mem_cons.mp hp with hp | hp
        · subst hp; exact hmem
        · have h2 := ih (l :: seen) p hp
          intro hc
          exact h2 (List.mem_cons_of_mem _ hc)

theorem legendLoop_mem :
    ∀ (ss : List TransactionByteSection) (seen : List String) (l : String),
      l ∈ (legendLoop seen ss).map Prod.fst ↔
        (l ∈ ss.filterMap TransactionByteSection.label ∧ l ∉ seen) := by
  intro ss
  induction ss with
  | nil => intro seen l; simp [legendLoop]
  | cons s rest ih =>
    intro seen l
    cases hl : s.label with
    | none =>
      rw [legendLoop_cons_none seen rest hl]
      simp only [List.filterMap_cons, hl]
      exact ih seen l
    | some a =>
      simp only [List.filterMap_cons, hl]
      by_cases hmem : a ∈ seen
      · rw [legendLoop_cons_mem seen rest hl hmem]
        rw [List.mem_cons]
        constructor
        · intro h
          obtain ⟨h1, h2⟩ := (ih seen l).mp h
          exact ⟨Or.inr h1, h2⟩
        · rintro ⟨h1 | h1, h2⟩
          · subst h1; exact absurd hmem h2
          · exact (ih seen l).mpr ⟨h1, h2⟩
      · rw [legendLoop_cons_new seen rest hl hmem]
        simp only [List.map_cons, List.mem_cons]
        constructor
        · rintro (h | h)
          · subst h; exact ⟨Or.inl rfl, hmem⟩
          · obtain ⟨h1, h2⟩ := (ih (a :: seen) l).mp h
            exact ⟨Or.inr h1, fun hc => h2 (List.mem_cons_of_mem _ hc)⟩
        · rintro ⟨h1 | h1, h2⟩
          · exact Or.inl h1
          · by_cases hla : l = a
            · exact Or.inl hla
            · refine Or.inr ((ih (a :: seen) l).mpr ⟨h1, ?_⟩)
              intro hc
              rcases List.mem_cons.mp hc with hc | hc
              · exact hla hc
              · exact h2 hc

theorem legendLoop_nodup :
    ∀ (ss : List TransactionByteSection) (seen : List String),
      ((legendLoop seen ss).map Prod.fst).Nodup := by
  intro ss
  induction ss with
  | nil => intro seen; simp [legendLoop]
  | cons s rest ih =>
    intro seen
    cases hl : s.label with
    | none =>
      rw [legendLoop_cons_none seen rest hl]
      exact ih seen
    | some a =>
      by_cases hmem : a ∈ seen
      · rw [legendLoop_cons_mem seen rest hl hmem]
        exact ih seen
      · rw [legendLoop_cons_new seen rest hl hmem]
        simp only [List.map_cons, List.nodup_cons]
        refine ⟨?_, ih (a :: seen)⟩
        intro hc
        have h2 := (legendLoop_mem rest (a :: seen) a).mp hc
        exact h2.2 (List.mem_cons_self a seen)

theorem legendLoop_pairwise :
    ∀ (ss : List TransactionByteSection) (seen : List String),
      ((legendLoop seen ss).map Prod.fst).Pairwise
        (fun a b => (ss.filterMap TransactionByteSection.label).indexOf a <
          (ss.filterMap TransactionByteSection.label).indexOf b) := by
  intro ss
  induction ss with
  | nil => intro seen; simp [legendLoop]
  | cons s rest ih =>
    intro seen
    cases hl : s.label with
    | none =>
      rw [legendLoop_cons_none seen rest hl]
      simp only [List.filterMap_cons, hl]
      exact ih seen
    | some a =>
      simp only [List.filterMap_cons, hl]
      by_cases hmem : a ∈ seen
      · rw [legendLoop_cons_mem seen rest hl hmem]
        refine List.Pairwise.imp_of_mem ?_ (ih seen)
        intro x y hx hy hxy
        have hxs : x ∉ seen := by
          obtain ⟨p, hp, hpx⟩ := List.mem_map.mp hx
          subst hpx
          exact legendLoop_fst_not_mem_seen rest seen p hp
        have hys : y ∉ seen := by
          obtain ⟨p, hp, hpy⟩ := List.mem_map.mp hy
          subst hpy
          exact legendLoop_fst_not_mem_seen rest seen p hp
        have hxa : a ≠ x := fun hc => hxs (hc ▸ hmem)
        have hya : a ≠ y := fun hc => hys (hc ▸ hmem)
        rw [List.indexOf_cons_ne _ hxa, List.indexOf_cons_ne _ hya]
        omega
      · rw [legendLoop_cons_new seen rest hl hmem]
        simp only [List.map_cons]
        rw [List.pairwise_cons]
        constructor
        · intro b hb
          have hbs : b ∉ a :: seen := by
            obtain ⟨p, hp, hpb⟩ := List.mem_map.mp hb
            subst hpb
            exact legendLoop_fst_not_mem_seen rest (a :: seen) p hp
          have hba : a ≠ b := fun hc => hbs (hc ▸ List.mem_cons_self a seen)
          rw [List.indexOf_cons_self, List.indexOf_cons_ne _ hba]
          omega
        · refine List.Pairwise.imp_of_mem ?_ (ih (a :: seen))
          intro x y hx hy hxy
          have hxs : x ∉ a :: seen := by
            obtain ⟨p, hp, hpx⟩ := List.mem_map.mp hx
            subst hpx
            exact legendLoop_fst_not_mem_seen rest (a :: seen) p hp
          have hys : y ∉ a :: seen := by
            obtain ⟨p, hp, hpy⟩ := List.mem_map.mp hy
            subst hpy
            exact legendLoop_fst_not_mem_seen rest (a :: seen) p hp
          have hxa : a ≠ x := fun hc => hxs (hc ▸ List.mem_cons_self a seen)
          have hya : a ≠ y := fun hc => hys (hc ▸ List.mem_cons_self a seen)
          rw [List.indexOf_cons_ne _ hxa, List.indexOf_cons_ne _ hya]
          omega

theorem legendLoop_colors :
    ∀ (ss : List TransactionByteSection) (seen : List String),
      ∀ p ∈ legendLoop seen ss, ∃ pre s post,
        ss = pre ++ s :: post ∧ s.label = some p.1 ∧ s.color = p.2 ∧
        ∀ t ∈ pre, t.label ≠ some p.1 := by
  intro ss
  induction ss with
  | nil => intro seen p hp; simp [legendLoop] at hp
  | cons s rest ih =>
    intro seen p hp
    cases hl : s.label with
    | none =>
      rw [legendLoop_cons_none seen rest hl] at hp
      obtain ⟨pre, s', post, heq, h1, h2, h3⟩ := ih seen p hp
      refine ⟨s :: pre, s', post, by simp [heq], h1, h2, ?_⟩
      intro t ht
      rcases List.mem_cons.mp ht with ht | ht
      · subst ht; rw [hl]; simp
      · exact h3 t ht
    | some a =>
      by_cases hmem : a ∈ seen
      · rw [legendLoop_cons_mem seen rest hl hmem] at hp
        obtain ⟨pre, s', post, heq, h1, h2, h3⟩ := ih seen p hp
        have hpa : p.1 ∉ seen := legendLoop_fst_not_mem_seen rest seen p hp
        refine ⟨s :: pre, s', post, by simp [heq], h1, h2, ?_⟩
        intro t ht
        rcases List.mem_cons.mp ht with ht | ht
        · subst ht
          rw [hl]
          intro hc
          exact hpa ((Option.some.inj hc) ▸ hmem)
        · exact h3 t ht
      · rw [legendLoop_cons_new seen rest hl hmem] at hp
        rcases List.mem_cons.mp hp with hp | hp
        · subst hp
          exact ⟨[], s, rest, rfl, by rw [hl], rfl, by simp⟩
        · obtain ⟨pre, s', post, heq, h1, h2, h3⟩ := ih (a :: seen) p hp
          have hpa : p.1 ∉ a :: seen :=
            legendLoop_fst_not_mem_seen rest (a :: seen) p hp
          refine ⟨s :: pre, s', post, by simp [heq], h1, h2, ?_⟩
          intro t ht
          rcases List.mem_cons.mp ht with ht | ht
          · subst ht
            rw [hl]
            intro hc
            exact hpa ((Option.some.inj hc) ▸ List.mem_cons_self a seen)
          · exact h3 t ht

/-- Claim C5, amended: the legend holds exactly one entry per distinct
*present* (`Some`) label — membership, no duplicates, entries ordered by
the label's first occurrence — and each entry's color is the color of the
first section carrying that label.  A present but empty-string label is
treated like any other label (the code only filters `is_some`), which is
the sole correction to the claim. -/
theorem claim_C5_legend_dedup (ss : List TransactionByteSection) :
    (∀ l : String, l ∈ (legendEntries ss).map Prod.fst ↔
      l ∈ ss.filterMap TransactionByteSection.label) ∧
    ((legendEntries ss).map Prod.fst).Nodup ∧
    ((legendEntries ss).map Prod.fst).Pairwise
      (fun a b => (ss.filterMap TransactionByteSection.label).indexOf a <
        (ss.filterMap TransactionByteSection.label).indexOf b) ∧
    (∀ p ∈ legendEntries ss, ∃ pre s post,
      ss = pre ++ s :: post ∧ s.label = some p.1 ∧ s.color = p.2 ∧
      ∀ t ∈ pre, t.label ≠ some p.1) := by
  simp only [legendEntries]
  refine ⟨?_, legendLoop_nodup ss [], legendLoop_pairwise ss [],
    legendLoop_colors ss []⟩
  intro l
  rw [legendLoop_mem ss [] l]
  simp

/-- Witness for C5 at a list with a duplicated label: the legend keeps one
entry for "A" (first-occurrence color) and one for "B". -/
theorem claim_C5_witness :
    (("A", Color.White) ∈
      legendEntries [⟨some "A", [], Color.White⟩, ⟨none, [], Color.Yellow⟩,
        ⟨some "A", [], Color.Yellow⟩, ⟨some "B", [], Color.Yellow⟩]) ∧
    (∃ pre s post,
      ([⟨some "A", [], Color.White⟩, ⟨none, [], Color.Yellow⟩,
        ⟨some "A", [], Color.Yellow⟩, ⟨some "B", [], Color.Yellow⟩]
        : List TransactionByteSection) = pre ++ s :: post ∧
      s.label = some "A" ∧ s.color = Color.White ∧
      ∀ t ∈ pre, t.label ≠ some "A") :=
  ⟨by decide,
   (claim_C5_legend_dedup [⟨some "A", [], Color.White⟩, ⟨none, [], Color.Yellow⟩,
      ⟨some "A", [], Color.Yellow⟩, ⟨some "B", [], Color.Yellow⟩]).2.2.2
     ("A", Color.White) (by decide)⟩

/-- Counterexample to C5 as stated: a section whose label is the *empty
string* (present but empty) does contribute a legend entry — the renderer
filters only absent (`None`) labels. -/
theorem claim_C5_counterexample :
    legendEntries [⟨some "", [], Color.White⟩] = [("", Color.White)] ∧
    legendEntries [⟨none, [], Color.White⟩] = [] :=
  ⟨by decide, by decide⟩

theorem pushRaw_sections_mono (bytes : List Byte) (st : ExtSt)
    (label : Option String) (color : Option Color) (n : Nat) :
    ∃ tail, (pushRaw bytes st label color n).sections = st.sections ++ tail := by
  unfold pushRaw
  by_cases h : st.panicked
  · exact ⟨[], by simp [h]⟩
  · simp only [h]
    cases hg : get_bytes bytes st.offset n with
    | none => exact ⟨[], by simp⟩
    | some v =>
      cases color with
      | none => exact ⟨[], by simp⟩
      | some c => exact ⟨[⟨label, v.1, c⟩], by simp⟩

theorem add_static_account_keys_sections_loop_sections_mono (bytes : List Byte) :
    ∀ (keys : List Pubkey) (idx : Nat) (st : ExtSt),
      ∃ tail, (add_static_account_keys_sections_loop bytes keys idx st).sections
        = st.sections ++ tail := by
  intro keys
  induction keys with
  | nil => intro idx st; exact ⟨[], by simp [add_static_account_keys_sections_loop]⟩
  | cons k rest ih =>
    intro idx st
    unfold add_static_account_keys_sections_loop
    obtain ⟨t1, ht1⟩ := pushRaw_sections_mono bytes st
      (some ("Static Account Key (" ++ toString idx ++ ")"))
      (COLOR_SET.static_account_key_colors.get? idx) 32
    obtain ⟨t2, ht2⟩ := ih (idx + 1)
      (pushRaw bytes st (some ("Static Account Key (" ++ toString idx ++ ")"))
        (COLOR_SET.static_account_key_colors.get? idx) 32)
    exact ⟨t1 ++ t2, by rw [ht2, ht1, List.append_assoc]⟩

/-- Counterexample to C3 as stated: on a legacy transaction with 128 static
account keys the extractor emits a "Static Account Keys Count" section of
exactly one byte (`[128]`, only the first byte of the prefix), while the
true encoded width of that count prefix in the buffer is 2 bytes — the
width was assumed to be 1 byte, not computed. -/
theorem claim_C3_counterexample :
    (⟨some "Static Account Keys Count", [128], Color.Yellow⟩
        : TransactionByteSection)
      ∈ (get_transaction_byte_sections txManyKeys []).sections ∧
    ([128] : List Byte).length = 1 ∧
    (encodeShortU16 txManyKeys.message.static_account_keys.length).length = 2 := by
  refine ⟨?_, by decide, by decide⟩
  have h0 : (bincode_serialize txManyKeys).drop 0 =
      encodeShortU16 txManyKeys.signatures.length ++
      ((txManyKeys.signatures.map Subtype.val).flatten ++
        (messageHeaderBytes txManyKeys.message ++
          (accountKeysBytes txManyKeys.message ++
            (txManyKeys.message.recent_blockhash.val ++
              (instructionsBytes txManyKeys.message ++
                (addressTableLookupsBytes txManyKeys.message ++ [])))))) := by
    simp [bincode_serialize, List.append_assoc]
  obtain ⟨o1, hp1, hle1, hd1⟩ := add_signature_sections_spec txManyKeys
    (bincode_serialize txManyKeys) [] 0 _ (by decide) (by omega) h0
  obtain ⟨o2, hp2, hle2, hd2⟩ := add_message_header_sections_spec txManyKeys
    (bincode_serialize txManyKeys) _ o1 _ hle1 hd1
  have key : ∀ F : List Byte, accountKeysBytes txManyKeys.message ++ F
      = [128] ++ ([1] ++
        ((txManyKeys.message.static_account_keys.map Subtype.val).flatten ++ F)) := by
    intro F
    have hl : txManyKeys.message.static_account_keys.length = 128 := by decide
    have he : encodeShortU16 128 = [128, 1] := by decide
    unfold accountKeysBytes
    rw [hl, he]
    simp [List.append_assoc]
  rw [key] at hd2
  obtain ⟨hp3, hle3, hd3⟩ := pushRaw_spec' ([128] : List Byte) 1
    (([] ++ (⟨some "Signature Count", encodeShortU16 txManyKeys.signatures.length,
        COLOR_SET.signature_count_color⟩ :: sigSectionsFrom txManyKeys.signatures 0))
      ++ (versionSections txManyKeys.message ++ headerSections txManyKeys.message))
    (some "Static Account Keys Count") Color.Yellow rfl hle2 hd2
  obtain ⟨tail, htail⟩ := add_static_account_keys_sections_loop_sections_mono
    (bincode_serialize txManyKeys) txManyKeys.message.static_account_keys 0
    ⟨(([] ++ (⟨some "Signature Count", encodeShortU16 txManyKeys.signatures.length,
        COLOR_SET.signature_count_color⟩ :: sigSectionsFrom txManyKeys.signatures 0))
      ++ (versionSections txManyKeys.message ++ headerSections txManyKeys.message))
      ++ [⟨some "Static Account Keys Count", [128], Color.Yellow⟩], o2 + 1, false⟩
  have hpanic : (add_static_account_keys_sections_loop (bincode_serialize txManyKeys)
      txManyKeys.message.static_account_keys 0
      ⟨(([] ++ (⟨some "Signature Count", encodeShortU16 txManyKeys.signatures.length,
          COLOR_SET.signature_count_color⟩ :: sigSectionsFrom txManyKeys.signatures 0))
        ++ (versionSections txManyKeys.message ++ headerSections txManyKeys.message))
        ++ [⟨some "Static Account Keys Count", [128], Color.Yellow⟩],
        o2 + 1, false⟩).panicked = true := by
    apply add_static_account_keys_sections_loop_panics
    · have hl : txManyKeys.message.static_account_keys.length = 128 := by decide
      omega
    · exact Or.inl (by omega)
  simp only [get_transaction_byte_sections]
  rw [hp1, hp2]
  simp only [add_static_account_keys_sections]
  rw [hp3]
  rw [add_recent_blockhash_section_of_panicked _ _ hpanic,
    add_instructions_sections_of_panicked _ _ hpanic,
    add_message_address_table_lookups_sections_of_panicked _ _ hpanic]
  rw [htail]
  simp

theorem sigLabel_not_countLabel :
    ∀ i : Fin 44, isCountLabel (some ("Signature (" ++ toString i.val ++ ")")) = false := by
  decide

theorem keyLabel_not_countLabel :
    ∀ i : Fin 44,
      isCountLabel (some ("Static Account Key (" ++ toString i.val ++ ")")) = false := by
  decide

theorem filter_countLabel_sigSectionsFrom :
    ∀ (sigs : List Signature) (idx : Nat), idx + sigs.length ≤ 44 →
      (sigSectionsFrom sigs idx).filter (fun s => isCountLabel s.label) = [] := by
  intro sigs
  induction sigs with
  | nil => intro idx _; rfl
  | cons s rest ih =>
    intro idx hle
    have hf := sigLabel_not_countLabel ⟨idx, by simp at hle; omega⟩
    simp only [sigSectionsFrom, List.filter_cons]
    rw [if_neg (by simp [hf])]
    exact ih (idx + 1) (by simp at hle ⊢; omega)

theorem filter_countLabel_keySectionsFrom :
    ∀ (keys : List Pubkey) (idx : Nat), idx + keys.length ≤ 44 →
      (keySectionsFrom keys idx).filter (fun s => isCountLabel s.label) = [] := by
  intro keys
  induction keys with
  | nil => intro idx _; rfl
  | cons k rest ih =>
    intro idx hle
    have hf := keyLabel_not_countLabel ⟨idx, by simp at hle; omega⟩
    simp only [keySectionsFrom, List.filter_cons]
    rw [if_neg (by simp [hf])]
    exact ih (idx + 1) (by simp at hle ⊢; omega)

theorem filter_countLabel_ixSections (ix : CompiledInstruction) :
    (ixSections ix).filter (fun s => isCountLabel s.label)
      = [⟨some "Instruction Number of Accounts", encodeShortU16 ix.accounts.length,
            COLOR_SET.instruction_num_accounts_color⟩,
         ⟨some "Instruction Data Length", encodeShortU16 ix.data.length,
            COLOR_SET.instruction_data_length_color⟩] := rfl

theorem filter_countLabel_atlSections (atl : MessageAddressTableLookup) :
    (atlSections atl).filter (fun s => isCountLabel s.label) = [] := rfl

theorem countBytes_ixFlatten :
    ∀ ixs : List CompiledInstruction,
      ((((ixs.map ixSections).flatten).filter
          (fun s => isCountLabel s.label)).map TransactionByteSection.bytes)
        = (ixs.map (fun ix => [encodeShortU16 ix.accounts.length,
            encodeShortU16 ix.data.length])).flatten := by
  intro ixs
  induction ixs with
  | nil => rfl
  | cons ix rest ih =>
    simp only [List.map_cons, List.flatten_cons, List.filter_append,
      List.map_append, filter_countLabel_ixSections, ih]
    rfl

theorem filter_countLabel_atlFlatten :
    ∀ atls : List MessageAddressTableLookup,
      ((atls.map atlSections).flatten).filter (fun s => isCountLabel s.label)
        = [] := by
  intro atls
  induction atls with
  | nil => rfl
  | cons atl rest ih =>
    simp only [List.map_cons, List.flatten_cons, List.filter_append,
      filter_countLabel_atlSections, ih]
    rfl

theorem filter_countLabel_versionSections (m : VersionedMessage) :
    (versionSections m).filter (fun s => isCountLabel s.label) = [] := by
  cases m <;> rfl

theorem filter_countLabel_headerSections (m : VersionedMessage) :
    (headerSections m).filter (fun s => isCountLabel s.label) = [] := rfl

theorem countBytes_atlPhase (m : VersionedMessage) :
    (((atlPhaseSections m).filter (fun s => isCountLabel s.label)).map
        TransactionByteSection.bytes)
      = (match m with
          | .legacy _ => []
          | .v0 _ atls => [encodeShortU16 atls.length]) := by
  cases m with
  | legacy msg => rfl
  | v0 msg atls =>
    simp only [atlPhaseSections, List.filter_cons, List.filter_append,
      filter_countLabel_atlFlatten]
    simp [isCountLabel]

/-- Claim C3, amended: on a `SafeCounts` transaction the count-prefix
sections (signature count, static-key count, instruction count,
per-instruction account count and data length, lookup count) carry exactly
the compact-length encoding of their counts — each between 1 and 3 bytes.
The instruction-level and lookup-count widths are computed via the
`ShortU16` serialized size for any transaction; the signature-count and
static-key-count sections are read as a hardcoded single byte, which
coincides with the true encoded width only because both counts are below
128 (the counterexample shows that width is assumed, not computed). -/
theorem claim_C3_count_prefix_widths (t : VersionedTransaction)
    (h : SafeCounts t) :
    ((((get_transaction_byte_sections t []).sections.filter
        (fun s => isCountLabel s.label)).map TransactionByteSection.bytes)
      = encodeShortU16 t.signatures.length
        :: encodeShortU16 t.message.static_account_keys.length
        :: encodeShortU16 t.message.instructions.length
        :: (((t.message.instructions.map (fun ix =>
              [encodeShortU16 ix.accounts.length,
               encodeShortU16 ix.data.length])).flatten)
          ++ (match t.message with
              | .legacy _ => []
              | .v0 _ atls => [encodeShortU16 atls.length]))) ∧
    (∀ bs ∈ (((get_transaction_byte_sections t []).sections.filter
        (fun s => isCountLabel s.label)).map TransactionByteSection.bytes),
      1 ≤ bs.length ∧ bs.length ≤ 3) := by
  obtain ⟨hs, hk, hatl⟩ := h
  have hmain : (((get_transaction_byte_sections t []).sections.filter
        (fun s => isCountLabel s.label)).map TransactionByteSection.bytes)
      = encodeShortU16 t.signatures.length
        :: encodeShortU16 t.message.static_account_keys.length
        :: encodeShortU16 t.message.instructions.length
        :: (((t.message.instructions.map (fun ix =>
              [encodeShortU16 ix.accounts.length,
               encodeShortU16 ix.data.length])).flatten)
          ++ (match t.message with
              | .legacy _ => []
              | .v0 _ atls => [encodeShortU16 atls.length])) := by
    rw [extractor_characterization t [] ⟨hs, hk, hatl⟩]
    simp only [expectedSections, List.filter_cons, List.filter_append]
    rw [filter_countLabel_sigSectionsFrom t.signatures 0 (by omega),
      filter_countLabel_keySectionsFrom t.message.static_account_keys 0 (by omega),
      filter_countLabel_versionSections, filter_countLabel_headerSections]
    simp only [show isCountLabel (some "Signature Count") = true from rfl,
      show isCountLabel (some "Static Account Keys Count") = true from rfl,
      show isCountLabel (some "Recent Blockhash") = false from rfl,
      show isCountLabel (some "Number of Instructions") = true from rfl,
      if_true, List.nil_append, List.append_nil]
    simp only [show (false = true) = False from by simp, if_false,
      List.nil_append]
    simp only [List.map_cons, List.map_append, countBytes_ixFlatten,
      countBytes_atlPhase]
  refine ⟨hmain, ?_⟩
  intro bs hbs
  rw [hmain] at hbs
  rcases List.mem_cons.mp hbs with hbs | hbs
  · subst hbs; exact encodeShortU16_length _
  rcases List.mem_cons.mp hbs with hbs | hbs
  · subst hbs; exact encodeShortU16_length _
  rcases List.mem_cons.mp hbs with hbs | hbs
  · subst hbs; exact encodeShortU16_length _
  rcases List.mem_append.mp hbs with hbs | hbs
  · obtain ⟨l, hl, hbl⟩ := List.mem_flatten.mp hbs
    obtain ⟨ix, _, hix⟩ := List.mem_map.mp hl
    subst hix
    rcases List.mem_cons.mp hbl with hbl | hbl
    · subst hbl; exact encodeShortU16_length _
    rcases List.mem_cons.mp hbl with hbl | hbl
    · subst hbl; exact encodeShortU16_length _
    · simp at hbl
  · cases hm : t.message with
    | legacy msg => rw [hm] at hbs; simp at hbs
    | v0 msg atls =>
      rw [hm] at hbs
      rcases List.mem_cons.mp hbs with hbs | hbs
      · subst hbs; exact encodeShortU16_length _
      · simp at hbs

/-- Witness for the amended C3 at the full v0 transaction. -/
theorem claim_C3_witness :
    SafeCounts txFullSafe ∧
    ((((get_transaction_byte_sections txFullSafe []).sections.filter
        (fun s => isCountLabel s.label)).map TransactionByteSection.bytes)
      = encodeShortU16 txFullSafe.signatures.length
        :: encodeShortU16 txFullSafe.message.static_account_keys.length
        :: encodeShortU16 txFullSafe.message.instructions.length
        :: (((txFullSafe.message.instructions.map (fun ix =>
              [encodeShortU16 ix.accounts.length,
               encodeShortU16 ix.data.length])).flatten)
          ++ (match txFullSafe.message with
              | .legacy _ => []
              | .v0 _ atls => [encodeShortU16 atls.length]))) :=
  ⟨by decide, (claim_C3_count_prefix_widths txFullSafe (by decide)).1⟩

set_option maxHeartbeats 2400000 in
theorem allowedPairs_functional : LabelFunctional allowedLabelColorPairs := by
  decide

theorem sigSections_mem_allowed :
    ∀ (sigs : List Signature) (idx : Nat), idx + sigs.length ≤ 44 →
      ∀ s ∈ sigSectionsFrom sigs idx,
        (s.label, s.color) ∈ allowedLabelColorPairs := by
  intro sigs
  induction sigs with
  | nil => intro idx _ s hs; simp [sigSectionsFrom] at hs
  | cons sg rest ih =>
    intro idx hle s hs
    rcases List.mem_cons.mp hs with hs | hs
    · subst hs
      unfold allowedLabelColorPairs
      refine List.mem_append.mpr (Or.inl (List.mem_append.mpr (Or.inr ?_)))
      refine List.mem_map.mpr ⟨idx, List.mem_range.mpr (by simp at hle; omega), rfl⟩
    · exact ih (idx + 1) (by simp at hle ⊢; omega) s hs

theorem keySections_mem_allowed :
    ∀ (keys : List Pubkey) (idx : Nat), idx + keys.length ≤ 44 →
      ∀ s ∈ keySectionsFrom keys idx,
        (s.label, s.color) ∈ allowedLabelColorPairs := by
  intro keys
  induction keys with
  | nil => intro idx _ s hs; simp [keySectionsFrom] at hs
  | cons k rest ih =>
    intro idx hle s hs
    rcases List.mem_cons.mp hs with hs | hs
    · subst hs
      unfold allowedLabelColorPairs
      refine List.mem_append.mpr (Or.inr ?_)
      refine List.mem_map.mpr ⟨idx, List.mem_range.mpr (by simp at hle; omega), rfl⟩
    · exact ih (idx + 1) (by simp at hle ⊢; omega) s hs

theorem ixSections_mem_allowed (ix : CompiledInstruction) :
    ∀ s ∈ ixSections ix, s.label.isSome = true →
      (s.label, s.color) ∈ allowedLabelColorPairs := by
  intro s hs hsome
  simp only [ixSections, List.mem_cons] at hs
  rcases hs with hs | hs | hs | hs | hs | hs
  · subst hs; simp at hsome
  · subst hs
    show (some "Instruction Number of Accounts",
      COLOR_SET.instruction_num_accounts_color) ∈ allowedLabelColorPairs
    decide
  · subst hs
    show (some "Instruction Accounts", COLOR_SET.instruction_accounts_color)
      ∈ allowedLabelColorPairs
    decide
  · subst hs
    show (some "Instruction Data Length", COLOR_SET.instruction_data_length_color)
      ∈ allowedLabelColorPairs
    decide
  · subst hs
    show (some "Instruction Data", COLOR_SET.instruction_data_color)
      ∈ allowedLabelColorPairs
    decide
  · simp at hs

theorem atlSections_mem_allowed (atl : MessageAddressTableLookup) :
    ∀ s ∈ atlSections atl,
      (s.label, s.color) ∈ allowedLabelColorPairs := by
  intro s hs
  simp only [atlSections, List.mem_cons] at hs
  rcases hs with hs | hs | hs | hs | hs | hs
  · subst hs
    show (some "Message Address Table Lookup Address",
      COLOR_SET.atl_address_color) ∈ allowedLabelColorPairs
    decide
  · subst hs
    show (some "Message Address Table Lookup Write Count",
      COLOR_SET.atl_write_count_color) ∈ allowedLabelColorPairs
    decide
  · subst hs
    show (some "Message Address Table Lookup Write Set",
      COLOR_SET.atl_write_set_color) ∈ allowedLabelColorPairs
    decide
  · subst hs
    show (some "Message Address Table Lookup Read Count",
      COLOR_SET.atl_read_count_color) ∈ allowedLabelColorPairs
    decide
  · subst hs
    show (some "Message Address Table Lookup Read Set",
      COLOR_SET.atl_read_set_color) ∈ allowedLabelColorPairs
    decide
  · simp at hs

theorem expected_mem_allowed (t : VersionedTransaction) (h : SafeCounts t) :
    ∀ s ∈ expectedSections t, s.label.isSome = true →
      (s.label, s.color) ∈ allowedLabelColorPairs := by
  obtain ⟨hs43, hk43, _⟩ := h
  intro s hs hsome
  unfold expectedSections at hs
  rcases List.mem_cons.mp hs with hs | hs
  · subst hs
    show (some "Signature Count", COLOR_SET.signature_count_color)
      ∈ allowedLabelColorPairs
    decide
  rcases List.mem_append.mp hs with hs | hs
  · rcases List.mem_append.mp hs with hs | hs
    · rcases List.mem_append.mp hs with hs | hs
      · exact sigSections_mem_allowed t.signatures 0 (by omega) s hs
      · cases hm : t.message with
        | legacy msg => rw [hm] at hs; simp [versionSections] at hs
        | v0 msg atls =>
          rw [hm] at hs
          simp only [versionSections, List.mem_singleton] at hs
          subst hs
          show (some "Version Byte", COLOR_SET.version_byte_color)
            ∈ allowedLabelColorPairs
          decide
    · simp only [headerSections, List.mem_cons] at hs
      rcases hs with hs | hs | hs | hs
      · subst hs
        show (some "num_required_signatures",
          COLOR_SET.num_required_signatures_color) ∈ allowedLabelColorPairs
        decide
      · subst hs
        show (some "num_readonly_signed_accounts",
          COLOR_SET.num_readonly_signed_accounts_color) ∈ allowedLabelColorPairs
        decide
      · subst hs
        show (some "num_readonly_unsigned_accounts",
          COLOR_SET.num_readonly_unsigned_accounts_color) ∈ allowedLabelColorPairs
        decide
      · simp at hs
  rcases List.mem_cons.mp hs with hs | hs
  · subst hs
    show (some "Static Account Keys Count", Color.Yellow)
      ∈ allowedLabelColorPairs
    decide
  rcases List.mem_append.mp hs with hs | hs
  · exact keySections_mem_allowed t.message.static_account_keys 0 (by omega) s hs
  rcases List.mem_cons.mp hs with hs | hs
  · subst hs
    show (some "Recent Blockhash", COLOR_SET.recent_blockhash_color)
      ∈ allowedLabelColorPairs
    decide
  rcases List.mem_cons.mp hs with hs | hs
  · subst hs
    show (some "Number of Instructions", COLOR_SET.num_instructions_color)
      ∈ allowedLabelColorPairs
    decide
  rcases List.mem_append.mp hs with hs | hs
  · obtain ⟨l, hl, hsl⟩ := List.mem_flatten.mp hs
    obtain ⟨ix, _, hix⟩ := List.mem_map.mp hl
    subst hix
    exact ixSections_mem_allowed ix s hsl hsome
  · cases hm : t.message with
    | legacy msg => rw [hm] at hs; simp [atlPhaseSections] at hs
    | v0 msg atls =>
      rw [hm] at hs
      simp only [atlPhaseSections, List.mem_cons] at hs
      rcases hs with hs | hs
      · subst hs
        show (some "Message Address Table Lookups Count",
          COLOR_SET.atl_count_color) ∈ allowedLabelColorPairs
        decide
      · obtain ⟨l, hl, hsl⟩ := List.mem_flatten.mp hs
        obtain ⟨atl, _, hatl⟩ := List.mem_map.mp hl
        subst hatl
        exact atlSections_mem_allowed atl s hsl

/-- Claim C8, amended: within any single decomposition of a `SafeCounts`
transaction, the color assignment is a function of the present label — two
sections with the same present label always share a color.  The other
direction of the claimed bijection is false: distinct labels may share a
color, since `Signature (i)` and `Static Account Key (i)` both use
key-slot color `i` (see the counterexample). -/
theorem claim_C8_label_color_functional (t : VersionedTransaction)
    (h : SafeCounts t) :
    ∀ s ∈ (get_transaction_byte_sections t []).sections,
      ∀ u ∈ (get_transaction_byte_sections t []).sections,
        s.label = u.label → s.label.isSome = true → s.color = u.color := by
  rw [extractor_characterization t [] h]
  intro s hs u hu hlab hsome
  have h1 := expected_mem_allowed t h s hs hsome
  have h2 := expected_mem_allowed t h u hu (by rw [← hlab]; exact hsome)
  exact allowedPairs_functional (s.label, s.color) h1 (u.label, u.color) h2
    hlab hsome

/-- Witness for the amended C8: in the two-instruction transaction the two
"Instruction Data" sections (indexes 14 and 19) share a color. -/
theorem claim_C8_witness :
    SafeCounts txTwoInstructions ∧
    (∃ s, (get_transaction_byte_sections txTwoInstructions []).sections.get? 14
        = some s ∧ s.label = some "Instruction Data") ∧
    (∃ u, (get_transaction_byte_sections txTwoInstructions []).sections.get? 19
        = some u ∧ u.label = some "Instruction Data") ∧
    (∀ s ∈ (get_transaction_byte_sections txTwoInstructions []).sections,
      ∀ u ∈ (get_transaction_byte_sections txTwoInstructions []).sections,
        s.label = u.label → s.label.isSome = true → s.color = u.color) :=
  ⟨by decide, by decide, by decide,
   claim_C8_label_color_functional txTwoInstructions (by decide)⟩

/-- Counterexample to C8 as stated: `Signature (0)` and
`Static Account Key (0)` are distinct labels, yet the corresponding
sections carry the same (key-slot 0) color. -/
theorem claim_C8_counterexample :
    ((get_transaction_byte_sections txSharedColor []).sections.get? 1).map
        (fun s => s.label) = some (some "Signature (0)") ∧
    ((get_transaction_byte_sections txSharedColor []).sections.get? 6).map
        (fun s => s.label) = some (some "Static Account Key (0)") ∧
    ((get_transaction_byte_sections txSharedColor []).sections.get? 1).map
        (fun s => s.color)
      = ((get_transaction_byte_sections txSharedColor []).sections.get? 6).map
        (fun s => s.color) ∧
    (some "Signature (0)" : Option String) ≠ some "Static Account Key (0)" :=
  ⟨by decide, by decide, by decide, by decide⟩
